import Mathlib

/-!
Verification of the particle-transport engine of `pytpc/simulation.py`.

The development below is a shallow embedding of the kinematics state
(`Particle` with its property setters), the force law (`lorentz`), the step
integrator (`find_next_state`), the trajectory driver (`track`), the reaction
composer (`simulate_elastic_scattering_track`) and the drift-vector helper
(`drift_velocity_vector`).  Machine floats are modelled as real numbers;
numpy length-3 arrays as `Vec3`.  Python's `ZeroDivisionError` in the driver
and exhaustion of the (unbounded) driver loop are made explicit through an
outcome type and a fuel parameter.  The in-place array mutation performed by
the step integrator on the shallow-copied particle (the `+=` on the shared
position array) is modelled by returning the post-call state of the input
particle alongside the computed state vector.

The modules `pytpc.constants` and `pytpc.relativity` are not part of the
sources under verification; the few quantities the engine needs from them are
modelled from the spec and marked as such in their doc comments.
-/

noncomputable section

attribute [instance] Classical.propDecidable

namespace PyTPC

/-- Three-component real vector, modelling the numpy length-3 arrays of
`pytpc/simulation.py`. -/
structure Vec3 where
  x : ℝ
  y : ℝ
  z : ℝ

/-- Componentwise addition of 3-vectors. -/
def Vec3.add (a b : Vec3) : Vec3 := ⟨a.x + b.x, a.y + b.y, a.z + b.z⟩

instance : Add Vec3 := ⟨Vec3.add⟩

/-- Scalar multiplication of a 3-vector. -/
def Vec3.smul (r : ℝ) (v : Vec3) : Vec3 := ⟨r * v.x, r * v.y, r * v.z⟩

instance : SMul ℝ Vec3 := ⟨Vec3.smul⟩

/-- Squared euclidean norm of a 3-vector. -/
def Vec3.normSq (v : Vec3) : ℝ := v.x ^ 2 + v.y ^ 2 + v.z ^ 2

/-- Euclidean norm of a 3-vector, as computed by `numpy.linalg.norm`. -/
def Vec3.norm (v : Vec3) : ℝ := Real.sqrt v.normSq

/-- Modelled from the spec: the proton rest energy in MeV, the constant
`p_mc2` of `pytpc.constants`, a module that is not among the sources under
verification. -/
def p_mc2 : ℝ := 938.272013

/-- Modelled from the spec: the elementary charge in coulomb, the constant
`e_chg` of `pytpc.constants` (module not among the sources). -/
def e_chg : ℝ := 1.602176487e-19

/-- Modelled from the spec: the speed of light in m/s, the constant `c_lgt`
of `pytpc.constants` (module not among the sources). -/
def c_lgt : ℝ := 299792458

/-- Modelled from the spec: the MeV/c^2 to kg conversion factor `MeVtokg` of
`pytpc.constants` (module not among the sources); it equals 1e6 e/c^2 so that
the SI accessors of the kinematics state are unit-consistent (spec section 6). -/
def MeVtokg : ℝ := 1e6 * e_chg / c_lgt ^ 2

/-- Modelled from the spec: the fixed path-length increment per tracking step
in meters, the constant `pos_step` of `pytpc.constants` (module not among the
sources; spec section 4.5 "constant spatial resolution"). -/
def pos_step : ℝ := 1e-3

theorem p_mc2_pos : 0 < p_mc2 := by norm_num [p_mc2]

theorem e_chg_pos : 0 < e_chg := by norm_num [e_chg]

theorem c_lgt_pos : 0 < c_lgt := by norm_num [c_lgt]

theorem MeVtokg_pos : 0 < MeVtokg := by
  have h1 := e_chg_pos
  have h2 := c_lgt_pos
  unfold MeVtokg
  positivity

theorem pos_step_pos : 0 < pos_step := by norm_num [pos_step]

/-- Python's `math.atan2 y x`: the argument of the complex number `x + i y`,
lying in the interval `(-pi, pi]`. -/
def atan2 (y x : ℝ) : ℝ := Complex.arg ⟨x, y⟩

/-- Modelled from the spec: `pytpc.relativity.beta` (module not among the
sources), the standard relativistic relation between kinetic energy, rest
mass and speed: beta = sqrt(T) sqrt(T + 2 m) / (T + m)  (spec sections 4.1
and 8). -/
def relBeta (en mass : ℝ) : ℝ :=
  Real.sqrt en * Real.sqrt (en + 2 * mass) / (en + mass)

/-- Modelled from the spec: `pytpc.relativity.gamma` for a velocity vector
(module not among the sources): the Lorentz factor of a velocity. -/
def relGamma (v : Vec3) : ℝ := 1 / Real.sqrt (1 - v.normSq / c_lgt ^ 2)

/-- The mutable state of `pytpc.simulation.Particle`: identity data together
with the stored fields `position`, `_energy`, `_mom_mag`, `_momentum`,
`_polar`, `_azimuth`, `_mass`, `_en_level` and `charge`. -/
structure Particle where
  mass_num : ℕ
  charge_num : ℤ
  en_level : ℝ
  mass : ℝ
  charge : ℝ
  position : Vec3
  energy : ℝ
  mom_mag : ℝ
  momentum : Vec3
  polar : ℝ
  azimuth : ℝ

/-- The unit direction vector determined by an azimuthal and a polar angle,
as built by the `Particle` constructor and the angle and energy setters. -/
def sphUnit (azi pol : ℝ) : Vec3 :=
  ⟨Real.cos azi * Real.sin pol, Real.sin azi * Real.sin pol, Real.cos pol⟩

/-- `Particle.__init__`: construct from mass number, charge number, energy per
nucleon, position, azimuth, polar angle and excitation level. -/
def mkParticle (mass_num : ℕ) (charge_num : ℤ) (energy_per_particle : ℝ)
    (position : Vec3) (azimuth polar : ℝ) (en_level : ℝ) : Particle :=
  let mass : ℝ := mass_num * p_mc2 + en_level
  let energy : ℝ := energy_per_particle * mass_num
  let mom_mag : ℝ := Real.sqrt ((energy + mass) ^ 2 - mass ^ 2)
  { mass_num := mass_num
    charge_num := charge_num
    en_level := en_level
    mass := mass
    charge := charge_num * e_chg
    position := position
    energy := energy
    mom_mag := mom_mag
    momentum := mom_mag • sphUnit azimuth polar
    polar := polar
    azimuth := azimuth }

/-- The `momentum` property setter: store the new momentum and recompute the
momentum magnitude, the kinetic energy and both trajectory angles. -/
def Particle.set_momentum (p : Particle) (new : Vec3) : Particle :=
  { p with
    momentum := new
    mom_mag := new.norm
    energy := Real.sqrt (new.norm ^ 2 + p.mass ^ 2) - p.mass
    polar := atan2 (Real.sqrt (new.x ^ 2 + new.y ^ 2)) new.z
    azimuth := atan2 new.y new.x }

/-- The `momentum_si` property getter (kg m/s). -/
def Particle.momentum_si (p : Particle) : Vec3 :=
  (1e6 * e_chg / c_lgt) • p.momentum

/-- The `momentum_si` property setter. -/
def Particle.set_momentum_si (p : Particle) (value : Vec3) : Particle :=
  p.set_momentum ((1e-6 / e_chg * c_lgt) • value)

/-- The `azimuth` property setter: store the new azimuth and rebuild the
momentum from the stored magnitude and the angle pair. -/
def Particle.set_azimuth (p : Particle) (new : ℝ) : Particle :=
  { p with
    azimuth := new
    momentum := p.mom_mag • sphUnit new p.polar }

/-- The `polar` property setter. -/
def Particle.set_polar (p : Particle) (new : ℝ) : Particle :=
  { p with
    polar := new
    momentum := p.mom_mag • sphUnit p.azimuth new }

/-- The `energy` property setter: recompute the momentum magnitude from the
new kinetic energy, rebuild the momentum along the current angles, and store
the kinetic energy recomputed back from the magnitude. -/
def Particle.set_energy (p : Particle) (new : ℝ) : Particle :=
  let mm := Real.sqrt ((new + p.mass) ^ 2 - p.mass ^ 2)
  { p with
    mom_mag := mm
    momentum := mm • sphUnit p.azimuth p.polar
    energy := Real.sqrt (mm ^ 2 + p.mass ^ 2) - p.mass }

/-- The `energy_j` property getter (joule). -/
def Particle.energy_j (p : Particle) : ℝ := p.energy * 1e6 * e_chg

/-- The `energy_j` property setter. -/
def Particle.set_energy_j (p : Particle) (value : ℝ) : Particle :=
  p.set_energy (value / 1e6 / e_chg)

/-- The `energy_per_particle` property getter (MeV/u). -/
def Particle.energy_per_particle (p : Particle) : ℝ := p.energy / p.mass_num

/-- The `energy_per_particle` property setter. -/
def Particle.set_energy_per_particle (p : Particle) (new : ℝ) : Particle :=
  p.set_energy (new * p.mass_num)

/-- The `mass_kg` property getter. -/
def Particle.mass_kg (p : Particle) : ℝ := p.mass * MeVtokg

/-- The `beta` property getter. -/
def Particle.beta (p : Particle) : ℝ := relBeta p.energy p.mass

/-- The `gamma` property getter, with Python's `ZeroDivisionError` handler
replacing an infinite Lorentz factor by the sentinel 1e100. -/
def Particle.gamma (p : Particle) : ℝ :=
  if Real.sqrt (1 - p.beta ^ 2) = 0 then 1e100
  else 1 / Real.sqrt (1 - p.beta ^ 2)

/-- The `velocity` property getter (m/s). -/
def Particle.velocity (p : Particle) : Vec3 :=
  (1e6 / c_lgt * e_chg / (p.gamma * p.mass_kg)) • p.momentum

/-- The `velocity` property setter. -/
def Particle.set_velocity (p : Particle) (new : Vec3) : Particle :=
  p.set_momentum ((relGamma new * p.mass_kg / e_chg * c_lgt * 1e-6) • new)

/-- The `state_vector` property getter: position and momentum packed together. -/
def Particle.state_vector (p : Particle) : Vec3 × Vec3 :=
  (p.position, p.momentum)

/-- The `state_vector` property setter: assign the position and run the
momentum setter on the momentum components. -/
def Particle.set_state_vector (p : Particle) (new : Vec3 × Vec3) : Particle :=
  ({ p with position := new.1 }).set_momentum new.2

/-- `Particle.excite`: run the energy setter with the kinetic energy reduced
by `level` (while the rest mass still has its old value), then replace the
rest mass by base rest energy plus `level`. -/
def Particle.excite (p : Particle) (level : ℝ) : Particle :=
  let q := p.set_energy (p.energy - level)
  { q with en_level := level, mass := p.mass_num * p_mc2 + level }

/-- The stopping-power provider contract (spec section 4.3): a gas exposes a
query from kinetic energy, mass number and charge number to an energy-loss
rate in MeV/m. -/
structure Gas where
  energy_loss : ℝ → ℕ → ℤ → ℝ

/-- `lorentz`: the electromagnetic force q (E + v x B), with the cross
product expanded componentwise exactly as in the source. -/
def lorentz (vel ef bf : Vec3) (charge : ℝ) : Vec3 :=
  ⟨charge * (ef.x + vel.y * bf.z - vel.z * bf.y),
   charge * (ef.y + vel.z * bf.x - vel.x * bf.z),
   charge * (ef.z + vel.x * bf.y - vel.y * bf.x)⟩

/-- `threshold`: replace any value below `threshmin` by `threshmin`. -/
def threshold (value threshmin : ℝ) : ℝ :=
  if value < threshmin then threshmin else value

/-- `find_next_state`: one integrator step.  The first component of the
result is the state vector the source returns; the second component is the
state of the *input* particle after the call.  In the normal integration
branch the source advances `new_particle.position` with an in-place `+=` on
an array shared with the input particle (the `copy.copy` on line 310 is a
shallow copy), so the input particle's position is advanced as well; in the
other two branches the input particle is untouched. -/
def find_next_state (particle : Particle) (gas : Gas) (ef bf : Vec3)
    (tstep : ℝ) : (Vec3 × Vec3) × Particle :=
  if particle.beta = 0 then (particle.state_vector, particle)
  else
    let force := lorentz particle.velocity ef bf particle.charge
    let new_mom := particle.momentum_si + tstep • force
    let dpos := tstep * particle.beta * c_lgt
    let stopping := gas.energy_loss particle.energy particle.mass_num particle.charge_num
    let de := threshold (stopping * dpos) 0
    if stopping ≤ 0 ∨ de = 0 then ((particle.position, ⟨0, 0, 0⟩), particle)
    else
      let en := threshold (particle.energy - de) 0
      let new_particle := (particle.set_momentum_si new_mom).set_energy en
      let moved := new_particle.position + tstep • new_particle.velocity
      (({ new_particle with position := moved }).state_vector,
        { particle with position := moved })

/-- One sample row of the trajectory table produced by `track`. -/
structure Row where
  pos : Vec3
  mom : Vec3
  time : ℝ
  en : ℝ
  de : ℝ
  azi : ℝ
  pol : ℝ

/-- The detector bounding geometry test of `track` (line 386) and of
`simulate_elastic_scattering_track` (line 457). -/
def outOfBounds (v : Vec3) : Prop :=
  ¬ (0 ≤ v.z ∧ v.z ≤ 1) ∨ Real.sqrt (v.x ^ 2 + v.y ^ 2) > 0.275

/-- Outcome of a `track` run: either the recorded trajectory with the final
particle state, or the uncaught `ZeroDivisionError` raised by the time-step
computation when the particle's beta is zero. -/
inductive TrackOutcome where
  | ok (rows : List Row) (final : Particle)
  | zeroDivisionError

/-- The body of the `while not done` loop of `track`, with explicit fuel;
`none` means the fuel was exhausted before a termination condition fired.
`revRows` holds the rows recorded so far, most recent first.  The position of
the most recent row shares its numpy array with the particle's position, so
the in-place advance inside `find_next_state` (see there) also rewrites that
row; this is modelled by replacing the head row's position with the mutated
particle's position. -/
def track_loop (gas : Gas) (ef bf : Vec3) (final_energy : ℝ) :
    ℕ → Particle → List Row → ℝ → Option TrackOutcome
  | 0, _, _, _ => none
  | fuel + 1, particle, revRows, current_time =>
    if particle.beta * c_lgt = 0 then some TrackOutcome.zeroDivisionError
    else
      let tstep := pos_step / (particle.beta * c_lgt)
      let step := find_next_state particle gas ef bf tstep
      let revRows1 : List Row :=
        match revRows with
        | [] => []
        | r :: rest => { r with pos := step.2.position } :: rest
      let p1 := step.2.set_state_vector step.1
      let prevEn : ℝ :=
        match revRows1 with
        | r :: _ => r.en
        | [] => 0
      let row : Row :=
        { pos := p1.position
          mom := p1.momentum
          time := current_time + tstep
          en := p1.energy_per_particle
          de := prevEn - p1.energy_per_particle
          azi := p1.azimuth
          pol := p1.polar }
      let done := p1.energy ≤ final_energy ∨ outOfBounds p1.position
      if done then some (TrackOutcome.ok (row :: revRows1).reverse p1)
      else track_loop gas ef bf final_energy fuel p1 (row :: revRows1) (current_time + tstep)

/-- `track`: record the initial sample, then run the driver loop.  The fuel
parameter makes the unbounded `while` loop of the source a total function:
`none` means the loop had not terminated after `fuel` iterations. -/
def track (fuel : ℕ) (particle : Particle) (gas : Gas) (ef bf : Vec3)
    (final_energy : ℝ) : Option TrackOutcome :=
  let row0 : Row :=
    { pos := particle.position
      mom := particle.momentum
      time := 0
      en := particle.energy_per_particle
      de := 0
      azi := particle.azimuth
      pol := particle.polar }
  track_loop gas ef bf final_energy fuel particle [row0] 0

/-- The two exception types raised by `simulate_elastic_scattering_track`. -/
inductive ScatterError where
  | valueError
  | notImplementedError

instance : DecidableEq ScatterError := fun a b => by
  cases a <;> cases b <;> first
    | exact isTrue rfl
    | exact isFalse (by intro h; cases h)

/-- Outcome of the reaction composer.  An `error` outcome carries the (unmodified)
projectile and target; `trackFail` stands for a sub-track call that raised
`ZeroDivisionError` or ran out of fuel; `ok` carries the combined track table,
the optional pair of true scattering angles (present exactly when requested),
and the projectile's state after its tracking phase. -/
inductive ComposerOutcome where
  | error (e : ScatterError) (proj target : Particle)
  | trackFail
  | ok (fulltrack : List Row) (angles : Option (Option ℝ × Option ℝ)) (proj : Particle)

/-- Shift the time column of a track table, as `ejec_track.time += reaction_time`. -/
def timeShift (dt : ℝ) (rows : List Row) : List Row :=
  rows.map fun r => { r with time := r.time + dt }

/-- `proj_track.time.max()`: the largest entry of the time column. -/
def maxTime (rows : List Row) : ℝ :=
  (rows.map Row.time).foldr max 0

/-- `simulate_elastic_scattering_track`.  The relativistic two-body kinematics
`pytpc.relativity.elastic_scatter` is an external collaborator (spec sections
1 and 6) and is taken as a function argument mapping the projectile at
interaction, the target, the CM angle, the final azimuth and the excitation
energy to the ejectile, the recoil and the pair of true scattering angles. -/
def simulate_elastic_scattering_track
    (elastic_scatter : Particle → Particle → ℝ → ℝ → ℝ → Particle × Particle × (ℝ × ℝ))
    (fuel : ℕ) (proj target : Particle) (gas : Gas) (ef bf : Vec3)
    (interact_energy cm_angle azimuth : ℝ) (ret_angles : Bool) (exc_en : ℝ) :
    ComposerOutcome :=
  if proj.energy = 0 then ComposerOutcome.error ScatterError.valueError proj target
  else if target.energy > 0 then
    ComposerOutcome.error ScatterError.notImplementedError proj target
  else
    match track fuel proj gas ef bf interact_energy with
    | none => ComposerOutcome.trackFail
    | some TrackOutcome.zeroDivisionError => ComposerOutcome.trackFail
    | some (TrackOutcome.ok projRows proj1) =>
      if outOfBounds proj1.position then
        ComposerOutcome.ok projRows
          (if ret_angles then some (none, none) else none) proj1
      else
        let reaction_time := maxTime projRows
        let res := elastic_scatter proj1 target cm_angle azimuth exc_en
        match track fuel res.1 gas ef bf 0, track fuel res.2.1 gas ef bf 0 with
        | some (TrackOutcome.ok ejRows _), some (TrackOutcome.ok recRows _) =>
          ComposerOutcome.ok
            (projRows ++ timeShift reaction_time ejRows ++ timeShift reaction_time recRows)
            (if ret_angles then some (some res.2.2.1, some res.2.2.2) else none) proj1
        | _, _ => ComposerOutcome.trackFail

/-- `drift_velocity_vector`: closed-form drift velocity under tilted fields. -/
def drift_velocity_vector (vd efield bfield tilt : ℝ) : Vec3 :=
  let ot := bfield / efield * vd * 1e4
  let front := vd / (1 + ot ^ 2)
  ⟨-front * ot * Real.sin tilt,
   front * ot ^ 2 * Real.cos tilt * Real.sin tilt,
   front * (1 + ot ^ 2 * Real.cos tilt ^ 2)⟩

/-! ### Basic vector and angle lemmas -/

theorem Vec3.normSq_nonneg (v : Vec3) : 0 ≤ v.normSq := by
  unfold Vec3.normSq; positivity

theorem Vec3.norm_nonneg (v : Vec3) : 0 ≤ v.norm := Real.sqrt_nonneg _

theorem Vec3.norm_sq (v : Vec3) : v.norm ^ 2 = v.normSq :=
  Real.sq_sqrt v.normSq_nonneg

theorem Vec3.add_def (a b : Vec3) : a + b = ⟨a.x + b.x, a.y + b.y, a.z + b.z⟩ := rfl

theorem Vec3.smul_def (r : ℝ) (v : Vec3) : r • v = ⟨r * v.x, r * v.y, r * v.z⟩ := rfl

theorem Vec3.normSq_smul (r : ℝ) (v : Vec3) : (r • v).normSq = r ^ 2 * v.normSq := by
  simp only [Vec3.smul_def, Vec3.normSq]; ring

theorem sphUnit_normSq (azi pol : ℝ) : (sphUnit azi pol).normSq = 1 := by
  unfold sphUnit Vec3.normSq
  dsimp only
  have h1 := Real.sin_sq_add_cos_sq azi
  have h2 := Real.sin_sq_add_cos_sq pol
  nlinarith [h1, h2]

theorem sphUnit_zero_zero : sphUnit 0 0 = ⟨0, 0, 1⟩ := by
  unfold sphUnit; norm_num

theorem smul_sphUnit_zero_zero (r : ℝ) : r • sphUnit 0 0 = ⟨0, 0, r⟩ := by
  rw [sphUnit_zero_zero, Vec3.smul_def]; norm_num

theorem atan2_zero_zero : atan2 0 0 = 0 := by
  have h : (⟨0, 0⟩ : ℂ) = 0 := Complex.ext rfl rfl
  rw [atan2, h, Complex.arg_zero]

theorem atan2_zero_of_pos (x : ℝ) (hx : 0 ≤ x) : atan2 0 x = 0 := by
  have h : (⟨x, 0⟩ : ℂ) = (x : ℝ) := Complex.ext rfl rfl
  rw [atan2, h]
  exact Complex.arg_ofReal_of_nonneg hx

theorem atan2_mem_Ioc (y x : ℝ) : atan2 y x ∈ Set.Ioc (-Real.pi) Real.pi :=
  Complex.arg_mem_Ioc _

theorem atan2_nonneg (y x : ℝ) (hy : 0 ≤ y) : 0 ≤ atan2 y x :=
  Complex.arg_nonneg_iff.mpr hy

theorem atan2_le_pi (y x : ℝ) : atan2 y x ≤ Real.pi := Complex.arg_le_pi _

/-! ### Lemmas about the modelled relativistic speed -/

theorem relBeta_nonneg (en mass : ℝ) (h : 0 ≤ en + mass) : 0 ≤ relBeta en mass := by
  unfold relBeta
  positivity

theorem relBeta_pos (en mass : ℝ) (hen : 0 < en) (hm : 0 < mass) :
    0 < relBeta en mass := by
  unfold relBeta
  have h1 : 0 < Real.sqrt en := Real.sqrt_pos.mpr hen
  have h2 : 0 < Real.sqrt (en + 2 * mass) := Real.sqrt_pos.mpr (by linarith)
  have h3 : 0 < en + mass := by linarith
  positivity

theorem relBeta_zero (mass : ℝ) : relBeta 0 mass = 0 := by
  unfold relBeta
  simp

theorem relBeta_sq (en mass : ℝ) (hen : 0 ≤ en) (hm : 0 < mass) :
    relBeta en mass ^ 2 = en * (en + 2 * mass) / (en + mass) ^ 2 := by
  unfold relBeta
  rw [div_pow, mul_pow, Real.sq_sqrt hen, Real.sq_sqrt (by linarith)]

theorem relBeta_lt_one (en mass : ℝ) (hen : 0 ≤ en) (hm : 0 < mass) :
    relBeta en mass < 1 := by
  have hb := relBeta_nonneg en mass (by linarith)
  have hsq : relBeta en mass ^ 2 = en * (en + 2 * mass) / (en + mass) ^ 2 :=
    relBeta_sq en mass hen hm
  have hlt : relBeta en mass ^ 2 < 1 := by
    rw [hsq]
    rw [div_lt_one (by positivity)]
    nlinarith
  nlinarith

theorem one_sub_relBeta_sq (en mass : ℝ) (hen : 0 ≤ en) (hm : 0 < mass) :
    1 - relBeta en mass ^ 2 = mass ^ 2 / (en + mass) ^ 2 := by
  rw [relBeta_sq en mass hen hm]
  field_simp
  ring

theorem sqrt_one_sub_relBeta_sq (en mass : ℝ) (hen : 0 ≤ en) (hm : 0 < mass) :
    Real.sqrt (1 - relBeta en mass ^ 2) = mass / (en + mass) := by
  rw [one_sub_relBeta_sq en mass hen hm, ← div_pow,
    Real.sqrt_sq (by positivity)]

/-! ### The energy-momentum-mass relation and valid particle states -/

/-- The invariant of spec section 3: total relativistic energy (kinetic plus
rest), rest mass and momentum magnitude satisfy E^2 = (pc)^2 + (mc^2)^2. -/
def EPInvariant (p : Particle) : Prop :=
  (p.energy + p.mass) ^ 2 = p.momentum.normSq + p.mass ^ 2

/-- A valid particle state: positive rest mass, non-negative kinetic energy,
a stored momentum magnitude that is the euclidean norm of the stored
momentum, and the energy-momentum-mass relation. -/
def Particle.Valid (p : Particle) : Prop :=
  0 < p.mass ∧ 0 ≤ p.energy ∧ 0 ≤ p.mom_mag ∧
    p.momentum.normSq = p.mom_mag ^ 2 ∧ EPInvariant p

/-! ### Field computations for the setters -/

theorem Particle.set_momentum_energy (p : Particle) (v : Vec3) :
    (p.set_momentum v).energy = Real.sqrt (v.normSq + p.mass ^ 2) - p.mass := by
  unfold Particle.set_momentum
  rw [Vec3.norm_sq]

theorem Particle.set_momentum_energy_nonneg (p : Particle) (v : Vec3)
    (hm : 0 ≤ p.mass) : 0 ≤ (p.set_momentum v).energy := by
  rw [Particle.set_momentum_energy, sub_nonneg]
  calc p.mass = Real.sqrt (p.mass ^ 2) := (Real.sqrt_sq hm).symm
    _ ≤ Real.sqrt (v.normSq + p.mass ^ 2) :=
        Real.sqrt_le_sqrt (by nlinarith [v.normSq_nonneg])

/-- The momentum setter always re-establishes the energy-momentum-mass
relation (`simulation.py` lines 76-83). -/
theorem set_momentum_invariant (p : Particle) (v : Vec3) :
    EPInvariant (p.set_momentum v) := by
  unfold EPInvariant
  have h1 : (p.set_momentum v).energy + (p.set_momentum v).mass
      = Real.sqrt (v.normSq + p.mass ^ 2) := by
    rw [Particle.set_momentum_energy]
    unfold Particle.set_momentum
    ring
  rw [h1]
  have h2 : (p.set_momentum v).momentum = v := rfl
  rw [h2]
  have h3 : (p.set_momentum v).mass = p.mass := rfl
  rw [h3]
  exact Real.sq_sqrt (by nlinarith [v.normSq_nonneg])

/-- The momentum setter produces a valid state whenever the rest mass is
positive. -/
theorem set_momentum_valid (p : Particle) (v : Vec3) (hm : 0 < p.mass) :
    (p.set_momentum v).Valid := by
  refine ⟨hm, Particle.set_momentum_energy_nonneg p v hm.le, v.norm_nonneg,
    ?_, set_momentum_invariant p v⟩
  exact (Vec3.norm_sq v).symm

theorem Particle.set_energy_energy (p : Particle) (new : ℝ) (hnew : 0 ≤ new)
    (hm : 0 ≤ p.mass) : (p.set_energy new).energy = new := by
  simp only [Particle.set_energy]
  have hrad : (0:ℝ) ≤ (new + p.mass) ^ 2 - p.mass ^ 2 := by nlinarith
  rw [Real.sq_sqrt hrad]
  have : (new + p.mass) ^ 2 - p.mass ^ 2 + p.mass ^ 2 = (new + p.mass) ^ 2 := by ring
  rw [this, Real.sqrt_sq (by linarith)]
  ring

theorem Particle.set_energy_momentum_normSq (p : Particle) (new : ℝ)
    (hnew : 0 ≤ new) (hm : 0 ≤ p.mass) :
    (p.set_energy new).momentum.normSq = (new + p.mass) ^ 2 - p.mass ^ 2 := by
  simp only [Particle.set_energy]
  have hrad : (0:ℝ) ≤ (new + p.mass) ^ 2 - p.mass ^ 2 := by nlinarith
  rw [Vec3.normSq_smul, sphUnit_normSq, mul_one, Real.sq_sqrt hrad]

/-- The energy setter always re-establishes the energy-momentum-mass
relation (`simulation.py` lines 127-133). -/
theorem set_energy_invariant (p : Particle) (new : ℝ) :
    EPInvariant (p.set_energy new) := by
  simp only [EPInvariant, Particle.set_energy]
  have hmm : (0:ℝ) ≤ Real.sqrt ((new + p.mass) ^ 2 - p.mass ^ 2) ^ 2 + p.mass ^ 2 := by
    positivity
  rw [Vec3.normSq_smul, sphUnit_normSq, mul_one]
  have : Real.sqrt (Real.sqrt ((new + p.mass) ^ 2 - p.mass ^ 2) ^ 2 + p.mass ^ 2)
      - p.mass + p.mass
      = Real.sqrt (Real.sqrt ((new + p.mass) ^ 2 - p.mass ^ 2) ^ 2 + p.mass ^ 2) := by
    ring
  rw [this, Real.sq_sqrt hmm]

/-- The angle setters keep the relation over a valid state, since they keep
the stored magnitude and energy and rebuild the momentum on the unit sphere. -/
theorem set_azimuth_invariant (p : Particle) (hp : p.Valid) (new : ℝ) :
    EPInvariant (p.set_azimuth new) := by
  obtain ⟨hm, he, hmm, hns, hinv⟩ := hp
  unfold EPInvariant Particle.set_azimuth
  rw [Vec3.normSq_smul, sphUnit_normSq, mul_one]
  unfold EPInvariant at hinv
  rw [hns] at hinv
  exact hinv

theorem set_polar_invariant (p : Particle) (hp : p.Valid) (new : ℝ) :
    EPInvariant (p.set_polar new) := by
  obtain ⟨hm, he, hmm, hns, hinv⟩ := hp
  unfold EPInvariant Particle.set_polar
  rw [Vec3.normSq_smul, sphUnit_normSq, mul_one]
  unfold EPInvariant at hinv
  rw [hns] at hinv
  exact hinv

/-- `excite` runs the energy setter while the rest mass still has its old
value, so the stored kinetic energy drops by `level` (lines 58-69). -/
theorem excite_energy (p : Particle) (level : ℝ) (h : 0 ≤ p.energy - level)
    (hm : 0 ≤ p.mass) : (p.excite level).energy = p.energy - level := by
  unfold Particle.excite
  exact Particle.set_energy_energy p _ h hm

theorem excite_mass (p : Particle) (level : ℝ) :
    (p.excite level).mass = p.mass_num * p_mc2 + level := rfl

/-- The momentum stored by `excite` is determined by the *old* rest mass:
its squared magnitude is (E - level + m_old)^2 - m_old^2. -/
theorem excite_momentum_normSq (p : Particle) (level : ℝ)
    (h : 0 ≤ p.energy - level) (hm : 0 ≤ p.mass) :
    (p.excite level).momentum.normSq
      = (p.energy - level + p.mass) ^ 2 - p.mass ^ 2 := by
  unfold Particle.excite
  exact Particle.set_energy_momentum_normSq p _ h hm

/-! ### A concrete family of particle states moving along the z axis -/

/-- The momentum magnitude of a particle with kinetic energy `e` and rest
mass `m`. -/
def pMag (e m : ℝ) : ℝ := Real.sqrt ((e + m) ^ 2 - m ^ 2)

theorem pMag_nonneg (e m : ℝ) : 0 ≤ pMag e m := Real.sqrt_nonneg _

theorem pMag_sq (e m : ℝ) (he : 0 ≤ e) (hm : 0 ≤ m) :
    pMag e m ^ 2 = (e + m) ^ 2 - m ^ 2 :=
  Real.sq_sqrt (by nlinarith)

theorem pMag_pos (e m : ℝ) (he : 0 < e) (hm : 0 ≤ m) : 0 < pMag e m :=
  Real.sqrt_pos.mpr (by nlinarith)

theorem pMag_zero (m : ℝ) : pMag 0 m = 0 := by
  unfold pMag
  have : (0 + m) ^ 2 - m ^ 2 = 0 := by ring
  rw [this, Real.sqrt_zero]

/-- A particle state at `(0, 0, z)` moving along the positive z axis with
kinetic energy `e`, no excitation, both trajectory angles zero. -/
def zPart (A : ℕ) (Z : ℤ) (e z : ℝ) : Particle :=
  { mass_num := A
    charge_num := Z
    en_level := 0
    mass := A * p_mc2
    charge := Z * e_chg
    position := ⟨0, 0, z⟩
    energy := e
    mom_mag := pMag e (A * p_mc2)
    momentum := ⟨0, 0, pMag e (A * p_mc2)⟩
    polar := 0
    azimuth := 0 }

/-- The constructor with axis-aligned angles produces a `zPart` state. -/
theorem mkParticle_axis (A : ℕ) (Z : ℤ) (epp z : ℝ) :
    mkParticle A Z epp ⟨0, 0, z⟩ 0 0 0 = zPart A Z (epp * A) z := by
  unfold mkParticle zPart pMag
  simp only [add_zero, smul_sphUnit_zero_zero]

theorem zPart_mass (A : ℕ) (Z : ℤ) (e z : ℝ) :
    (zPart A Z e z).mass = A * p_mc2 := rfl

theorem zPart_mass_pos (A : ℕ) (Z : ℤ) (e z : ℝ) (hA : 0 < A) :
    0 < (zPart A Z e z).mass := by
  rw [zPart_mass]
  have : (0:ℝ) < A := by exact_mod_cast hA
  nlinarith [p_mc2_pos]

theorem zPart_valid (A : ℕ) (Z : ℤ) (e z : ℝ) (hA : 0 < A) (he : 0 ≤ e) :
    (zPart A Z e z).Valid := by
  have hm := zPart_mass_pos A Z e z hA
  refine ⟨hm, he, pMag_nonneg _ _, ?_, ?_⟩
  · show (0:ℝ) ^ 2 + 0 ^ 2 + pMag e (A * p_mc2) ^ 2 = pMag e (A * p_mc2) ^ 2
    ring
  · unfold EPInvariant
    show (e + (A : ℝ) * p_mc2) ^ 2
        = (0:ℝ) ^ 2 + 0 ^ 2 + pMag e (A * p_mc2) ^ 2 + ((A : ℝ) * p_mc2) ^ 2
    rw [pMag_sq e _ he (by rw [zPart_mass] at hm; linarith)]
    ring

/-! ### Claim C9: the drift-velocity helper with parallel fields -/

/-- Claim C9: for every drift speed and field magnitudes with nonzero
electric field, `drift_velocity_vector` at tilt 0 returns a vector with zero
x and y components and z component equal to the nominal drift speed, the
factor vd/(1+(omega tau)^2) cancelling against (1+(omega tau)^2). -/
theorem c9_drift_parallel (vd efield bfield : ℝ) (hef : efield ≠ 0) :
    drift_velocity_vector vd efield bfield 0 = ⟨0, 0, vd⟩ := by
  have h : (0:ℝ) < 1 + (bfield / efield * vd * 1e4) ^ 2 := by positivity
  simp only [drift_velocity_vector, Vec3.mk.injEq]
  refine ⟨by simp, by simp, ?_⟩
  rw [Real.cos_zero, one_pow, mul_one]
  field_simp

/-- Witness for C9 at vd = 2, efield = 1, bfield = 3. -/
theorem c9_drift_parallel_witness :
    (1:ℝ) ≠ 0 ∧ drift_velocity_vector 2 1 3 0 = ⟨0, 0, 2⟩ :=
  ⟨by norm_num, c9_drift_parallel 2 1 3 (by norm_num)⟩

/-! ### Claim C10: angle normalisation by the momentum setter -/

/-- Claim C10: after any assignment to the momentum vector (directly, via
`momentum_si`, or via `state_vector`), the stored azimuth lies in (-pi, pi]
and the stored polar angle in [0, pi], both being recomputed with atan2; and
assigning the zero momentum vector (as the stopped-particle state does) sets
azimuth, polar and kinetic energy all to exactly 0. -/
theorem c10_momentum_setter_angles (p : Particle) (v : Vec3) (w : Vec3 × Vec3)
    (hm : 0 ≤ p.mass) :
    ((p.set_momentum v).azimuth ∈ Set.Ioc (-Real.pi) Real.pi ∧
      (p.set_momentum v).polar ∈ Set.Icc 0 Real.pi) ∧
    ((p.set_momentum_si v).azimuth ∈ Set.Ioc (-Real.pi) Real.pi ∧
      (p.set_momentum_si v).polar ∈ Set.Icc 0 Real.pi) ∧
    ((p.set_state_vector w).azimuth ∈ Set.Ioc (-Real.pi) Real.pi ∧
      (p.set_state_vector w).polar ∈ Set.Icc 0 Real.pi) ∧
    ((p.set_momentum ⟨0, 0, 0⟩).azimuth = 0 ∧
      (p.set_momentum ⟨0, 0, 0⟩).polar = 0 ∧
      (p.set_momentum ⟨0, 0, 0⟩).energy = 0) ∧
    ((p.set_momentum_si ⟨0, 0, 0⟩).azimuth = 0 ∧
      (p.set_momentum_si ⟨0, 0, 0⟩).polar = 0 ∧
      (p.set_momentum_si ⟨0, 0, 0⟩).energy = 0) ∧
    ((p.set_state_vector (w.1, ⟨0, 0, 0⟩)).azimuth = 0 ∧
      (p.set_state_vector (w.1, ⟨0, 0, 0⟩)).polar = 0 ∧
      (p.set_state_vector (w.1, ⟨0, 0, 0⟩)).energy = 0) := by
  have hzero : ∀ q : Particle, 0 ≤ q.mass →
      (q.set_momentum ⟨0, 0, 0⟩).azimuth = 0 ∧
      (q.set_momentum ⟨0, 0, 0⟩).polar = 0 ∧
      (q.set_momentum ⟨0, 0, 0⟩).energy = 0 := by
    intro q hq
    refine ⟨atan2_zero_zero, ?_, ?_⟩
    · show atan2 (Real.sqrt ((0:ℝ) ^ 2 + 0 ^ 2)) 0 = 0
      have : Real.sqrt ((0:ℝ) ^ 2 + 0 ^ 2) = 0 := by
        norm_num
      rw [this]
      exact atan2_zero_zero
    · rw [Particle.set_momentum_energy]
      have : Vec3.normSq ⟨0, 0, 0⟩ = 0 := by
        unfold Vec3.normSq
        norm_num
      rw [this, zero_add, Real.sqrt_sq hq, sub_self]
  have hrange : ∀ (q : Particle) (u : Vec3),
      (q.set_momentum u).azimuth ∈ Set.Ioc (-Real.pi) Real.pi ∧
      (q.set_momentum u).polar ∈ Set.Icc 0 Real.pi := by
    intro q u
    refine ⟨atan2_mem_Ioc _ _, ⟨atan2_nonneg _ _ (Real.sqrt_nonneg _), atan2_le_pi _ _⟩⟩
  have hsi0 : ((1e-6 / e_chg * c_lgt) • (⟨0, 0, 0⟩ : Vec3)) = ⟨0, 0, 0⟩ := by
    rw [Vec3.smul_def]
    norm_num
  refine ⟨hrange p v, hrange p _, hrange _ w.2, hzero p hm, ?_, ?_⟩
  · unfold Particle.set_momentum_si
    rw [hsi0]
    exact hzero p hm
  · unfold Particle.set_state_vector
    exact hzero _ hm

/-- A concrete state-vector pair used by witnesses. -/
def cW : Vec3 × Vec3 := (⟨0, 0, 0⟩, ⟨4, 5, 6⟩)

theorem zPart_energy (A : ℕ) (Z : ℤ) (e z : ℝ) : (zPart A Z e z).energy = e := rfl

theorem zPart_position (A : ℕ) (Z : ℤ) (e z : ℝ) :
    (zPart A Z e z).position = ⟨0, 0, z⟩ := rfl

theorem zPart_momentum (A : ℕ) (Z : ℤ) (e z : ℝ) :
    (zPart A Z e z).momentum = ⟨0, 0, pMag e (A * p_mc2)⟩ := rfl

theorem zPart_azimuth (A : ℕ) (Z : ℤ) (e z : ℝ) : (zPart A Z e z).azimuth = 0 := rfl

theorem zPart_polar (A : ℕ) (Z : ℤ) (e z : ℝ) : (zPart A Z e z).polar = 0 := rfl

theorem zPart_mass_num (A : ℕ) (Z : ℤ) (e z : ℝ) : (zPart A Z e z).mass_num = A := rfl

/-! ### Claim C1: the energy-momentum-mass relation across the setters -/

/-- Claim C1 (amended): over a valid state, every pure setter (momentum,
momentum in SI units, energy, energy in joule, energy per nucleon, azimuth,
polar, velocity, state vector) re-establishes (E + m)^2 = |p|^2 + m^2 for the
unchanged rest mass; `excite level` (from a state with `level` at most the
kinetic energy) reduces the kinetic energy by `level` and sets the rest mass
to base rest energy plus `level`, but the momentum it stores is the one
consistent with the *old* rest mass: its squared magnitude is
(E - level + m_old)^2 - m_old^2, so the invariant holds through the pre-call
mass rather than the new one. -/
theorem c1_amended (p : Particle) (hp : p.Valid) (v u vel : Vec3)
    (sv : Vec3 × Vec3) (enew ej epp az pol level : ℝ)
    (henew : 0 ≤ enew) (hej : 0 ≤ ej) (hepp : 0 ≤ epp)
    (hlev : level ≤ p.energy) :
    EPInvariant (p.set_momentum v) ∧
    EPInvariant (p.set_momentum_si u) ∧
    EPInvariant (p.set_energy enew) ∧
    EPInvariant (p.set_energy_j ej) ∧
    EPInvariant (p.set_energy_per_particle epp) ∧
    EPInvariant (p.set_azimuth az) ∧
    EPInvariant (p.set_polar pol) ∧
    EPInvariant (p.set_velocity vel) ∧
    EPInvariant (p.set_state_vector sv) ∧
    ((p.excite level).energy = p.energy - level ∧
      (p.excite level).mass = p.mass_num * p_mc2 + level ∧
      (p.excite level).momentum.normSq
        = (p.energy - level + p.mass) ^ 2 - p.mass ^ 2) := by
  have hm := hp.1
  refine ⟨set_momentum_invariant p v, set_momentum_invariant p _,
    set_energy_invariant p enew, set_energy_invariant p _,
    set_energy_invariant p _, set_azimuth_invariant p hp az,
    set_polar_invariant p hp pol, set_momentum_invariant p _,
    set_momentum_invariant _ _, ?_, ?_, ?_⟩
  · exact excite_energy p level (by linarith) hm.le
  · exact excite_mass p level
  · exact excite_momentum_normSq p level (by linarith) hm.le

/-- Counterexample to C1 as stated: from the valid state `zPart 1 1 2 0`
(a proton-mass particle with 2 MeV kinetic energy), calling `excite 1`
leaves a state whose stored kinetic energy, momentum and (new) rest mass
violate (E + m)^2 = |p|^2 + m^2: the energy setter ran with the old rest
mass and the mass was replaced afterwards. -/
theorem c1_counterexample :
    (zPart 1 1 2 0).Valid ∧ ¬ EPInvariant ((zPart 1 1 2 0).excite 1) := by
  refine ⟨zPart_valid 1 1 2 0 (by norm_num) (by norm_num), ?_⟩
  intro hinv
  have hm : (0:ℝ) ≤ (zPart 1 1 2 0).mass := (zPart_mass_pos 1 1 2 0 (by norm_num)).le
  have hlev : (0:ℝ) ≤ (zPart 1 1 2 0).energy - 1 := by
    rw [zPart_energy]; norm_num
  have h1 : ((zPart 1 1 2 0).excite 1).energy = 1 := by
    rw [excite_energy _ _ hlev hm, zPart_energy]; norm_num
  have h3 : ((zPart 1 1 2 0).excite 1).momentum.normSq
      = (1 + (1:ℕ) * p_mc2) ^ 2 - ((1:ℕ) * p_mc2) ^ 2 := by
    rw [excite_momentum_normSq _ _ hlev hm, zPart_energy, zPart_mass]
    norm_num
  unfold EPInvariant at hinv
  rw [h1, excite_mass, h3, zPart_mass_num] at hinv
  push_cast at hinv
  nlinarith [hinv]

/-- Witness for C1 (amended) at the valid state `zPart 1 1 2 0` and concrete
setter arguments. -/
theorem c1_amended_witness :
    (zPart 1 1 2 0).Valid ∧ (1:ℝ) ≤ (zPart 1 1 2 0).energy ∧
    (EPInvariant ((zPart 1 1 2 0).set_momentum ⟨1, 2, 3⟩) ∧
    EPInvariant ((zPart 1 1 2 0).set_momentum_si ⟨1, 0, 0⟩) ∧
    EPInvariant ((zPart 1 1 2 0).set_energy 3) ∧
    EPInvariant ((zPart 1 1 2 0).set_energy_j 1) ∧
    EPInvariant ((zPart 1 1 2 0).set_energy_per_particle 2) ∧
    EPInvariant ((zPart 1 1 2 0).set_azimuth 1) ∧
    EPInvariant ((zPart 1 1 2 0).set_polar 1) ∧
    EPInvariant ((zPart 1 1 2 0).set_velocity ⟨1, 1, 1⟩) ∧
    EPInvariant ((zPart 1 1 2 0).set_state_vector cW) ∧
    (((zPart 1 1 2 0).excite 1).energy = (zPart 1 1 2 0).energy - 1 ∧
      ((zPart 1 1 2 0).excite 1).mass = (zPart 1 1 2 0).mass_num * p_mc2 + 1 ∧
      ((zPart 1 1 2 0).excite 1).momentum.normSq
        = ((zPart 1 1 2 0).energy - 1 + (zPart 1 1 2 0).mass) ^ 2
          - (zPart 1 1 2 0).mass ^ 2)) :=
  ⟨zPart_valid 1 1 2 0 (by norm_num) (by norm_num),
    by rw [zPart_energy]; norm_num,
    c1_amended (zPart 1 1 2 0) (zPart_valid 1 1 2 0 (by norm_num) (by norm_num))
      ⟨1, 2, 3⟩ ⟨1, 0, 0⟩ ⟨1, 1, 1⟩ cW 3 1 2 1 1 1
      (by norm_num) (by norm_num) (by norm_num)
      (by rw [zPart_energy]; norm_num)⟩

/-- Witness for C10 at a helium-like particle state and concrete vectors. -/
theorem c10_momentum_setter_angles_witness :
    (0:ℝ) ≤ (zPart 1 1 2 0).mass ∧
    ((((zPart 1 1 2 0).set_momentum ⟨1, 2, 3⟩).azimuth ∈ Set.Ioc (-Real.pi) Real.pi ∧
      ((zPart 1 1 2 0).set_momentum ⟨1, 2, 3⟩).polar ∈ Set.Icc 0 Real.pi) ∧
    (((zPart 1 1 2 0).set_momentum_si ⟨1, 2, 3⟩).azimuth ∈ Set.Ioc (-Real.pi) Real.pi ∧
      ((zPart 1 1 2 0).set_momentum_si ⟨1, 2, 3⟩).polar ∈ Set.Icc 0 Real.pi) ∧
    (((zPart 1 1 2 0).set_state_vector cW).azimuth ∈ Set.Ioc (-Real.pi) Real.pi ∧
      ((zPart 1 1 2 0).set_state_vector cW).polar ∈ Set.Icc 0 Real.pi) ∧
    (((zPart 1 1 2 0).set_momentum ⟨0, 0, 0⟩).azimuth = 0 ∧
      ((zPart 1 1 2 0).set_momentum ⟨0, 0, 0⟩).polar = 0 ∧
      ((zPart 1 1 2 0).set_momentum ⟨0, 0, 0⟩).energy = 0) ∧
    (((zPart 1 1 2 0).set_momentum_si ⟨0, 0, 0⟩).azimuth = 0 ∧
      ((zPart 1 1 2 0).set_momentum_si ⟨0, 0, 0⟩).polar = 0 ∧
      ((zPart 1 1 2 0).set_momentum_si ⟨0, 0, 0⟩).energy = 0) ∧
    (((zPart 1 1 2 0).set_state_vector (cW.1, ⟨0, 0, 0⟩)).azimuth = 0 ∧
      ((zPart 1 1 2 0).set_state_vector (cW.1, ⟨0, 0, 0⟩)).polar = 0 ∧
      ((zPart 1 1 2 0).set_state_vector (cW.1, ⟨0, 0, 0⟩)).energy = 0)) :=
  ⟨(zPart_mass_pos 1 1 2 0 (by norm_num)).le,
    c10_momentum_setter_angles (zPart 1 1 2 0) ⟨1, 2, 3⟩ cW
      (zPart_mass_pos 1 1 2 0 (by norm_num)).le⟩

/-! ### Claim C8: state-vector round trip -/

/-- Claim C8 (amended): reading a particle's state vector and setting it back
leaves position, momentum, energy, azimuth and polar angle unchanged for
every valid particle whose stored angles are the canonical atan2 values of
its stored momentum (as they are after any momentum assignment); for other
states the setter recomputes the angles to canonical form. -/
theorem c8_state_vector_roundtrip (p : Particle) (hp : p.Valid)
    (hazi : p.azimuth = atan2 p.momentum.y p.momentum.x)
    (hpol : p.polar
      = atan2 (Real.sqrt (p.momentum.x ^ 2 + p.momentum.y ^ 2)) p.momentum.z) :
    (p.set_state_vector p.state_vector).position = p.position ∧
    (p.set_state_vector p.state_vector).momentum = p.momentum ∧
    (p.set_state_vector p.state_vector).energy = p.energy ∧
    (p.set_state_vector p.state_vector).azimuth = p.azimuth ∧
    (p.set_state_vector p.state_vector).polar = p.polar := by
  obtain ⟨hm, he, hmm, hns, hinv⟩ := hp
  refine ⟨rfl, rfl, ?_, hazi.symm, hpol.symm⟩
  show (p.set_momentum p.momentum).energy = p.energy
  rw [Particle.set_momentum_energy]
  unfold EPInvariant at hinv
  have h1 : p.momentum.normSq + p.mass ^ 2 = (p.energy + p.mass) ^ 2 := hinv.symm
  rw [h1, Real.sqrt_sq (by linarith)]
  ring

/-- Counterexample to C8 as stated: a particle constructed with zero kinetic
energy but azimuth 1 has zero momentum, and the round trip through the state
vector resets its azimuth to atan2(0, 0) = 0. -/
theorem c8_counterexample :
    ((mkParticle 1 1 0 ⟨0, 0, 0⟩ 1 1 0).set_state_vector
        (mkParticle 1 1 0 ⟨0, 0, 0⟩ 1 1 0).state_vector).azimuth = 0 ∧
    (mkParticle 1 1 0 ⟨0, 0, 0⟩ 1 1 0).azimuth = 1 := by
  have hmom : (mkParticle 1 1 0 ⟨0, 0, 0⟩ 1 1 0).momentum = ⟨0, 0, 0⟩ := by
    simp only [mkParticle, Nat.cast_one, mul_one, one_mul, add_zero, zero_mul,
      zero_add, sub_self, Real.sqrt_zero, Vec3.smul_def]
  constructor
  · have h : ((mkParticle 1 1 0 ⟨0, 0, 0⟩ 1 1 0).set_state_vector
        (mkParticle 1 1 0 ⟨0, 0, 0⟩ 1 1 0).state_vector).azimuth
        = atan2 (mkParticle 1 1 0 ⟨0, 0, 0⟩ 1 1 0).momentum.y
            (mkParticle 1 1 0 ⟨0, 0, 0⟩ 1 1 0).momentum.x := rfl
    rw [h, hmom]
    exact atan2_zero_zero
  · rfl

/-- Witness for C8 (amended) at the canonical state `zPart 1 1 2 0`. -/
theorem c8_state_vector_roundtrip_witness :
    ((zPart 1 1 2 0).Valid ∧
      (zPart 1 1 2 0).azimuth
        = atan2 (zPart 1 1 2 0).momentum.y (zPart 1 1 2 0).momentum.x ∧
      (zPart 1 1 2 0).polar
        = atan2 (Real.sqrt ((zPart 1 1 2 0).momentum.x ^ 2
            + (zPart 1 1 2 0).momentum.y ^ 2)) (zPart 1 1 2 0).momentum.z) ∧
    (((zPart 1 1 2 0).set_state_vector (zPart 1 1 2 0).state_vector).position
        = (zPart 1 1 2 0).position ∧
      ((zPart 1 1 2 0).set_state_vector (zPart 1 1 2 0).state_vector).momentum
        = (zPart 1 1 2 0).momentum ∧
      ((zPart 1 1 2 0).set_state_vector (zPart 1 1 2 0).state_vector).energy
        = (zPart 1 1 2 0).energy ∧
      ((zPart 1 1 2 0).set_state_vector (zPart 1 1 2 0).state_vector).azimuth
        = (zPart 1 1 2 0).azimuth ∧
      ((zPart 1 1 2 0).set_state_vector (zPart 1 1 2 0).state_vector).polar
        = (zPart 1 1 2 0).polar) := by
  have hvalid := zPart_valid 1 1 2 0 (by norm_num) (by norm_num)
  have hazi : (zPart 1 1 2 0).azimuth
      = atan2 (zPart 1 1 2 0).momentum.y (zPart 1 1 2 0).momentum.x :=
    atan2_zero_zero.symm
  have hpol : (zPart 1 1 2 0).polar
      = atan2 (Real.sqrt ((zPart 1 1 2 0).momentum.x ^ 2
          + (zPart 1 1 2 0).momentum.y ^ 2)) (zPart 1 1 2 0).momentum.z := by
    have h0 : Real.sqrt ((zPart 1 1 2 0).momentum.x ^ 2
        + (zPart 1 1 2 0).momentum.y ^ 2) = 0 := by
      show Real.sqrt ((0:ℝ) ^ 2 + 0 ^ 2) = 0
      norm_num
    rw [h0]
    exact (atan2_zero_of_pos _ (pMag_nonneg _ _)).symm
  exact ⟨⟨hvalid, hazi, hpol⟩,
    c8_state_vector_roundtrip (zPart 1 1 2 0) hvalid hazi hpol⟩

/-! ### Elementary facts about threshold and vectors -/

theorem threshold_nonneg (x : ℝ) : 0 ≤ threshold x 0 := by
  unfold threshold
  split
  · exact le_refl 0
  · linarith [not_lt.mp (by assumption : ¬ x < 0)]

theorem threshold_eq_of_not_lt (x c : ℝ) (h : ¬ x < c) : threshold x c = x := by
  unfold threshold
  exact if_neg h

theorem threshold_le_of_nonneg (e d : ℝ) (he : 0 ≤ e) (hd : 0 ≤ d) :
    threshold (e - d) 0 ≤ e := by
  unfold threshold
  split
  · exact he
  · linarith

theorem Vec3.add_zero_vec (v : Vec3) : v + (⟨0, 0, 0⟩ : Vec3) = v := by
  rw [Vec3.add_def]
  norm_num

theorem Vec3.smul_smul_vec (a b : ℝ) (v : Vec3) : a • (b • v) = (a * b) • v := by
  simp only [Vec3.smul_def]
  ring_nf

theorem Vec3.one_smul_vec (v : Vec3) : (1:ℝ) • v = v := by
  rw [Vec3.smul_def]
  norm_num

theorem lorentz_zero_fields (v : Vec3) (q : ℝ) :
    lorentz v ⟨0, 0, 0⟩ ⟨0, 0, 0⟩ q = ⟨0, 0, 0⟩ := by
  unfold lorentz
  norm_num

/-! ### The derived velocity of a particle -/

theorem Particle.gamma_eq (p : Particle) (he : 0 ≤ p.energy) (hm : 0 < p.mass) :
    p.gamma = (p.energy + p.mass) / p.mass := by
  unfold Particle.gamma
  have hb : Particle.beta p = relBeta p.energy p.mass := rfl
  rw [hb, sqrt_one_sub_relBeta_sq p.energy p.mass he hm]
  rw [if_neg (by positivity)]
  rw [one_div_div]

/-- The SI-unit algebra of the `velocity` getter collapses to
v = (c / (E + m)) p for a valid-energy particle. -/
theorem Particle.velocity_eq (p : Particle) (he : 0 ≤ p.energy) (hm : 0 < p.mass) :
    p.velocity = (c_lgt / (p.energy + p.mass)) • p.momentum := by
  unfold Particle.velocity
  rw [Particle.gamma_eq p he hm]
  congr 1
  unfold Particle.mass_kg MeVtokg
  have hc := c_lgt_pos
  have hech := e_chg_pos
  have hem : 0 < p.energy + p.mass := by linarith
  field_simp
  ring

/-- Reading `momentum_si` and writing it back is the same as rewriting the
plain momentum: the SI conversion factors cancel. -/
theorem set_momentum_si_roundtrip (p : Particle) :
    p.set_momentum_si p.momentum_si = p.set_momentum p.momentum := by
  unfold Particle.set_momentum_si Particle.momentum_si
  congr 1
  rw [Vec3.smul_smul_vec]
  have hc := c_lgt_pos
  have hech := e_chg_pos
  have h1 : 1e-6 / e_chg * c_lgt * (1e6 * e_chg / c_lgt) = 1 := by
    field_simp
    ring_nf
  rw [h1, Vec3.one_smul_vec]

/-! ### Branch lemmas for the step integrator -/

theorem find_next_state_beta_zero (p : Particle) (gas : Gas) (ef bf : Vec3)
    (t : ℝ) (hb : p.beta = 0) :
    find_next_state p gas ef bf t = (p.state_vector, p) := by
  unfold find_next_state
  rw [if_pos hb]

theorem find_next_state_stopped (p : Particle) (gas : Gas) (ef bf : Vec3)
    (t : ℝ) (hb : ¬ p.beta = 0)
    (hcond : gas.energy_loss p.energy p.mass_num p.charge_num ≤ 0 ∨
      threshold (gas.energy_loss p.energy p.mass_num p.charge_num
        * (t * p.beta * c_lgt)) 0 = 0) :
    find_next_state p gas ef bf t = ((p.position, ⟨0, 0, 0⟩), p) := by
  unfold find_next_state
  rw [if_neg hb, if_pos hcond]

/-- The normal integration branch: the new particle carries the impulse-updated
momentum and the decremented energy, and the *input* particle's position is
advanced in place alongside (the shallow copy shares the position array). -/
theorem find_next_state_normal (p : Particle) (gas : Gas) (ef bf : Vec3)
    (t : ℝ) (hb : ¬ p.beta = 0)
    (hcond : ¬ (gas.energy_loss p.energy p.mass_num p.charge_num ≤ 0 ∨
      threshold (gas.energy_loss p.energy p.mass_num p.charge_num
        * (t * p.beta * c_lgt)) 0 = 0)) :
    find_next_state p gas ef bf t =
      ((p.position + t • ((p.set_momentum_si (p.momentum_si
            + t • lorentz p.velocity ef bf p.charge)).set_energy
          (threshold (p.energy - threshold (gas.energy_loss p.energy p.mass_num
            p.charge_num * (t * p.beta * c_lgt)) 0) 0)).velocity,
        ((p.set_momentum_si (p.momentum_si + t • lorentz p.velocity ef bf
            p.charge)).set_energy
          (threshold (p.energy - threshold (gas.energy_loss p.energy p.mass_num
            p.charge_num * (t * p.beta * c_lgt)) 0) 0)).momentum),
       { p with position := p.position + t • ((p.set_momentum_si (p.momentum_si
            + t • lorentz p.velocity ef bf p.charge)).set_energy
          (threshold (p.energy - threshold (gas.energy_loss p.energy p.mass_num
            p.charge_num * (t * p.beta * c_lgt)) 0) 0)).velocity }) := by
  unfold find_next_state
  rw [if_neg hb, if_neg hcond]
  rfl

/-! ### Evaluation of the setters on axis-aligned states -/

theorem zPart_beta (A : ℕ) (Z : ℤ) (e z : ℝ) :
    (zPart A Z e z).beta = relBeta e (A * p_mc2) := rfl

theorem Vec3.smul_zero_vec (r : ℝ) : r • (⟨0, 0, 0⟩ : Vec3) = ⟨0, 0, 0⟩ := by
  rw [Vec3.smul_def]
  norm_num

/-- The momentum setter with an axis-aligned momentum of magnitude
`pMag e' m` turns a (possibly moved) `zPart` state into the `zPart` state of
kinetic energy `e'`. -/
theorem zPart_update_momentum (A : ℕ) (Z : ℤ) (e z e' : ℝ) (pos : Vec3)
    (hA : 0 < A) (he' : 0 ≤ e') :
    ({ zPart A Z e z with position := pos }).set_momentum
        ⟨0, 0, pMag e' (A * p_mc2)⟩
      = { zPart A Z e' z with position := pos } := by
  have hApos : (0:ℝ) < A := by exact_mod_cast hA
  have hm : (0:ℝ) < A * p_mc2 := by nlinarith [p_mc2_pos]
  have hpm : 0 ≤ pMag e' ((A:ℝ) * p_mc2) := pMag_nonneg _ _
  have hns : Vec3.normSq ⟨0, 0, pMag e' ((A:ℝ) * p_mc2)⟩
      = pMag e' ((A:ℝ) * p_mc2) ^ 2 := by
    unfold Vec3.normSq
    dsimp only
    ring
  have hnorm : Vec3.norm ⟨0, 0, pMag e' ((A:ℝ) * p_mc2)⟩
      = pMag e' ((A:ℝ) * p_mc2) := by
    unfold Vec3.norm
    rw [hns, Real.sqrt_sq hpm]
  have hen : Real.sqrt (Vec3.norm ⟨0, 0, pMag e' ((A:ℝ) * p_mc2)⟩ ^ 2
      + ((A:ℝ) * p_mc2) ^ 2) - (A:ℝ) * p_mc2 = e' := by
    rw [hnorm, pMag_sq e' _ he' hm.le]
    have h2 : (e' + (A:ℝ) * p_mc2) ^ 2 - ((A:ℝ) * p_mc2) ^ 2
        + ((A:ℝ) * p_mc2) ^ 2 = (e' + (A:ℝ) * p_mc2) ^ 2 := by ring
    rw [h2, Real.sqrt_sq (by linarith)]
    ring
  have hpol : atan2 (Real.sqrt ((0:ℝ) ^ 2 + 0 ^ 2)) (pMag e' ((A:ℝ) * p_mc2)) = 0 := by
    have h0 : Real.sqrt ((0:ℝ) ^ 2 + 0 ^ 2) = 0 := by norm_num
    rw [h0]
    exact atan2_zero_of_pos _ hpm
  unfold Particle.set_momentum zPart
  dsimp only
  rw [Particle.mk.injEq]
  exact ⟨rfl, rfl, rfl, rfl, rfl, rfl, hen, hnorm, rfl, hpol, atan2_zero_zero⟩

/-- Momentum self-assignment on an axis state is the identity. -/
theorem zPart_set_momentum_self (A : ℕ) (Z : ℤ) (e z : ℝ)
    (hA : 0 < A) (he : 0 ≤ e) :
    (zPart A Z e z).set_momentum ⟨0, 0, pMag e (A * p_mc2)⟩ = zPart A Z e z :=
  zPart_update_momentum A Z e z e ⟨0, 0, z⟩ hA he

/-- The stopped-particle momentum assignment zeroes the state. -/
theorem zPart_set_momentum_zero (A : ℕ) (Z : ℤ) (e z : ℝ) (hA : 0 < A) :
    (zPart A Z e z).set_momentum ⟨0, 0, 0⟩ = zPart A Z 0 z := by
  have h := zPart_update_momentum A Z e z 0 ⟨0, 0, z⟩ hA le_rfl
  rw [pMag_zero] at h
  exact h

/-- The energy setter on an axis state. -/
theorem zPart_set_energy (A : ℕ) (Z : ℤ) (e z e' : ℝ) (hA : 0 < A)
    (he' : 0 ≤ e') :
    (zPart A Z e z).set_energy e' = zPart A Z e' z := by
  have hApos : (0:ℝ) < A := by exact_mod_cast hA
  have hm : (0:ℝ) < A * p_mc2 := by nlinarith [p_mc2_pos]
  have hen : Real.sqrt (Real.sqrt ((e' + (A:ℝ) * p_mc2) ^ 2
      - ((A:ℝ) * p_mc2) ^ 2) ^ 2 + ((A:ℝ) * p_mc2) ^ 2) - (A:ℝ) * p_mc2 = e' := by
    have hrad : (0:ℝ) ≤ (e' + (A:ℝ) * p_mc2) ^ 2 - ((A:ℝ) * p_mc2) ^ 2 := by
      nlinarith
    rw [Real.sq_sqrt hrad]
    have h2 : (e' + (A:ℝ) * p_mc2) ^ 2 - ((A:ℝ) * p_mc2) ^ 2
        + ((A:ℝ) * p_mc2) ^ 2 = (e' + (A:ℝ) * p_mc2) ^ 2 := by ring
    rw [h2, Real.sqrt_sq (by linarith)]
    ring
  unfold Particle.set_energy zPart
  dsimp only
  rw [Particle.mk.injEq]
  refine ⟨rfl, rfl, rfl, rfl, rfl, rfl, hen, rfl, ?_, rfl, rfl⟩
  rw [smul_sphUnit_zero_zero]
  rfl

/-- The momentum magnitude is speed times total energy. -/
theorem pMag_eq (e m : ℝ) (he : 0 ≤ e) (hm : 0 < m) :
    pMag e m = relBeta e m * (e + m) := by
  unfold pMag relBeta
  rw [div_mul_cancel₀ _ (by linarith : e + m ≠ 0)]
  rw [← Real.sqrt_mul he]
  congr 1
  ring

/-- The velocity of an axis state is beta c along z. -/
theorem zPart_velocity (A : ℕ) (Z : ℤ) (e z : ℝ) (hA : 0 < A) (he : 0 ≤ e) :
    (zPart A Z e z).velocity = ⟨0, 0, c_lgt * relBeta e (A * p_mc2)⟩ := by
  have hm := zPart_mass_pos A Z e z hA
  have hm2 : (0:ℝ) < (A:ℝ) * p_mc2 := by rw [zPart_mass] at hm; exact hm
  rw [Particle.velocity_eq _ he hm]
  show (c_lgt / (e + (A:ℝ) * p_mc2)) • (⟨0, 0, pMag e ((A:ℝ) * p_mc2)⟩ : Vec3)
      = (⟨0, 0, c_lgt * relBeta e ((A:ℝ) * p_mc2)⟩ : Vec3)
  rw [Vec3.smul_def]
  rw [pMag_eq e _ he hm2]
  have hem : e + (A:ℝ) * p_mc2 ≠ 0 := by linarith
  rw [Vec3.mk.injEq]
  refine ⟨by ring, by ring, ?_⟩
  field_simp
  ring

/-! ### One full integrator step on an axis state with zero fields -/

/-- The energy decrement computed by one call of `find_next_state` on an
axis-aligned state: stopping power times path length. -/
def deStep (gas : Gas) (A : ℕ) (Z : ℤ) (e t : ℝ) : ℝ :=
  gas.energy_loss e A Z * (t * relBeta e (A * p_mc2) * c_lgt)

/-- With zero fields, positive stopping power and an energy decrement below
the current kinetic energy, one integrator step on an axis state advances the
position along z by the post-step speed times the time step, reduces the
kinetic energy by the decrement — and writes the advanced position back into
the input particle (the in-place `+=` on the shared array). -/
theorem zPart_step_zero_fields (A : ℕ) (Z : ℤ) (e z t : ℝ) (gas : Gas)
    (hA : 0 < A) (he : 0 < e)
    (hs : 0 < gas.energy_loss e A Z) (ht : 0 < t)
    (he2 : 0 < e - deStep gas A Z e t) :
    find_next_state (zPart A Z e z) gas ⟨0, 0, 0⟩ ⟨0, 0, 0⟩ t
      = ((⟨0, 0, z + t * (c_lgt * relBeta (e - deStep gas A Z e t) ((A:ℝ) * p_mc2))⟩,
          ⟨0, 0, pMag (e - deStep gas A Z e t) ((A:ℝ) * p_mc2)⟩),
         { zPart A Z e z with position :=
            ⟨0, 0, z + t * (c_lgt * relBeta (e - deStep gas A Z e t) ((A:ℝ) * p_mc2))⟩ }) := by
  have hApos : (0:ℝ) < A := by exact_mod_cast hA
  have hm : (0:ℝ) < A * p_mc2 := by nlinarith [p_mc2_pos]
  have hbpos : 0 < relBeta e ((A:ℝ) * p_mc2) := relBeta_pos e _ he hm
  have hbeta : ¬ (zPart A Z e z).beta = 0 := by
    rw [zPart_beta]
    exact ne_of_gt hbpos
  have hde_pos : 0 < gas.energy_loss e A Z
      * (t * relBeta e ((A:ℝ) * p_mc2) * c_lgt) :=
    mul_pos hs (mul_pos (mul_pos ht hbpos) c_lgt_pos)
  have hthr : threshold (gas.energy_loss e A Z
        * (t * relBeta e ((A:ℝ) * p_mc2) * c_lgt)) 0
      = gas.energy_loss e A Z * (t * relBeta e ((A:ℝ) * p_mc2) * c_lgt) :=
    threshold_eq_of_not_lt _ _ (not_lt.mpr hde_pos.le)
  have hcond : ¬ (gas.energy_loss (zPart A Z e z).energy (zPart A Z e z).mass_num
      (zPart A Z e z).charge_num ≤ 0 ∨
      threshold (gas.energy_loss (zPart A Z e z).energy (zPart A Z e z).mass_num
        (zPart A Z e z).charge_num * (t * (zPart A Z e z).beta * c_lgt)) 0 = 0) := by
    show ¬ (gas.energy_loss e A Z ≤ 0 ∨
      threshold (gas.energy_loss e A Z
        * (t * relBeta e ((A:ℝ) * p_mc2) * c_lgt)) 0 = 0)
    rw [hthr]
    push_neg
    exact ⟨hs, ne_of_gt hde_pos⟩
  have hmain := find_next_state_normal (zPart A Z e z) gas ⟨0, 0, 0⟩ ⟨0, 0, 0⟩ t
    hbeta hcond
  rw [hmain]
  have hnp : ((zPart A Z e z).set_momentum_si ((zPart A Z e z).momentum_si
        + t • lorentz (zPart A Z e z).velocity ⟨0, 0, 0⟩ ⟨0, 0, 0⟩
          (zPart A Z e z).charge)).set_energy
      (threshold ((zPart A Z e z).energy
        - threshold (gas.energy_loss (zPart A Z e z).energy
            (zPart A Z e z).mass_num (zPart A Z e z).charge_num
          * (t * (zPart A Z e z).beta * c_lgt)) 0) 0)
      = zPart A Z (e - deStep gas A Z e t) z := by
    rw [lorentz_zero_fields, Vec3.smul_zero_vec, Vec3.add_zero_vec,
      set_momentum_si_roundtrip]
    have hme : (zPart A Z e z).momentum
        = (⟨0, 0, pMag e ((A:ℝ) * p_mc2)⟩ : Vec3) := rfl
    rw [hme, zPart_set_momentum_self A Z e z hA he.le]
    have hth : threshold ((zPart A Z e z).energy
        - threshold (gas.energy_loss (zPart A Z e z).energy
            (zPart A Z e z).mass_num (zPart A Z e z).charge_num
          * (t * (zPart A Z e z).beta * c_lgt)) 0) 0
        = e - deStep gas A Z e t := by
      show threshold (e - threshold (gas.energy_loss e A Z
        * (t * relBeta e ((A:ℝ) * p_mc2) * c_lgt)) 0) 0 = e - deStep gas A Z e t
      rw [hthr]
      exact threshold_eq_of_not_lt _ _ (not_lt.mpr he2.le)
    rw [hth, zPart_set_energy A Z e z _ hA he2.le]
  rw [hnp, zPart_velocity A Z _ z hA he2.le]
  rw [show (zPart A Z e z).position = (⟨0, 0, z⟩ : Vec3) from rfl]
  rw [show (zPart A Z (e - deStep gas A Z e t) z).momentum
      = (⟨0, 0, pMag (e - deStep gas A Z e t) ((A:ℝ) * p_mc2)⟩ : Vec3) from rfl]
  rw [Vec3.smul_def, Vec3.add_def]
  norm_num

/-! ### Claim C2: the step integrator mutates its input particle -/

/-- A stopping-power provider returning the constant rate 1 MeV/m. -/
def gasOne : Gas := ⟨fun _ _ _ => 1⟩

/-- Claim C2 fails on the code: one normal integrator step advances the
*input* particle's z position strictly beyond its pre-call value, because the
shallow copy of line 310 shares the numpy position array with the input and
line 315 adds to it in place.  Evaluated at a 2 MeV proton-like particle in
`gasOne` with zero fields and time step 1/c. -/
theorem c2_find_next_state_mutates :
    (zPart 1 1 2 (1/2)).position.z
      < ((find_next_state (zPart 1 1 2 (1/2)) gasOne ⟨0, 0, 0⟩ ⟨0, 0, 0⟩
          (1 / c_lgt)).2).position.z := by
  have hc := c_lgt_pos
  have hm : (0:ℝ) < ((1:ℕ):ℝ) * p_mc2 := by
    push_cast
    norm_num [p_mc2]
  have hb1 : relBeta 2 (((1:ℕ):ℝ) * p_mc2) < 1 :=
    relBeta_lt_one 2 _ (by norm_num) hm
  have hde : deStep gasOne 1 1 2 (1 / c_lgt) = relBeta 2 (((1:ℕ):ℝ) * p_mc2) := by
    show (1:ℝ) * (1 / c_lgt * relBeta 2 (((1:ℕ):ℝ) * p_mc2) * c_lgt)
        = relBeta 2 (((1:ℕ):ℝ) * p_mc2)
    field_simp
  have he2 : 0 < 2 - deStep gasOne 1 1 2 (1 / c_lgt) := by
    rw [hde]
    linarith
  have hstep := zPart_step_zero_fields 1 1 2 (1/2) (1 / c_lgt) gasOne
    (by norm_num) (by norm_num) (by norm_num [gasOne])
    (by positivity) he2
  rw [hstep]
  have hb2 : 0 < relBeta (2 - deStep gasOne 1 1 2 (1 / c_lgt)) (((1:ℕ):ℝ) * p_mc2) :=
    relBeta_pos _ _ he2 hm
  show (1/2 : ℝ) < 1/2 + (1 / c_lgt)
      * (c_lgt * relBeta (2 - deStep gasOne 1 1 2 (1 / c_lgt)) (((1:ℕ):ℝ) * p_mc2))
  have hpos : 0 < (1 / c_lgt)
      * (c_lgt * relBeta (2 - deStep gasOne 1 1 2 (1 / c_lgt)) (((1:ℕ):ℝ) * p_mc2)) :=
    mul_pos (by positivity) (mul_pos hc hb2)
  linarith

/-! ### Claim C3: tracking a zero-energy particle -/

/-- Claim C3 fails on the code: for a particle constructed with zero kinetic
energy, beta is exactly zero, and the very first loop iteration of `track`
divides `pos_step` by `beta * c_lgt = 0` (line 369) *before* the stopped
branch of `find_next_state` could fire, so the run raises
`ZeroDivisionError` instead of returning after the first step.  Modelled by
the explicit zero-division outcome, reached for any fuel, gas and fields. -/
theorem c3_track_zero_energy_divzero (gas : Gas) (ef bf : Vec3) (fe : ℝ) (n : ℕ) :
    track (n + 1) (mkParticle 4 2 0 ⟨0, 0, 1/2⟩ 0 0 0) gas ef bf fe
      = some TrackOutcome.zeroDivisionError := by
  rw [mkParticle_axis]
  have h0 : (0:ℝ) * ((4:ℕ):ℝ) = 0 := by norm_num
  rw [h0]
  have hbeta : (zPart 4 2 0 (1/2)).beta * c_lgt = 0 := by
    rw [zPart_beta, relBeta_zero, zero_mul]
  unfold track
  simp only [track_loop]
  rw [if_pos hbeta]

/-- Witness instance of C3's failing input at fuel 1. -/
theorem c3_track_zero_energy_divzero_witness :
    track 1 (mkParticle 4 2 0 ⟨0, 0, 1/2⟩ 0 0 0) gasOne ⟨0, 0, 0⟩ ⟨0, 0, 0⟩ 0
      = some TrackOutcome.zeroDivisionError :=
  c3_track_zero_energy_divzero gasOne ⟨0, 0, 0⟩ ⟨0, 0, 0⟩ 0 0

/-! ### A one-step run that stops on non-positive stopping power -/

/-- When the provider reports non-positive stopping power, a one-step `track`
run records the initial sample and the stopped sample (momentum forced to
zero, all kinetic energy booked as that step's energy loss) and ends by the
energy floor. -/
theorem track_one_stop (A : ℕ) (Z : ℤ) (e z : ℝ) (gas : Gas) (ef bf : Vec3)
    (fe : ℝ) (hA : 0 < A) (he : 0 < e) (hfe : 0 ≤ fe)
    (hstop : gas.energy_loss e A Z ≤ 0) :
    track 1 (zPart A Z e z) gas ef bf fe
      = some (TrackOutcome.ok
          [{ pos := ⟨0, 0, z⟩, mom := ⟨0, 0, pMag e ((A:ℝ) * p_mc2)⟩, time := 0,
             en := e / A, de := 0, azi := 0, pol := 0 },
           { pos := ⟨0, 0, z⟩, mom := ⟨0, 0, 0⟩,
             time := pos_step / (relBeta e ((A:ℝ) * p_mc2) * c_lgt),
             en := 0, de := e / A, azi := 0, pol := 0 }]
          (zPart A Z 0 z)) := by
  have hApos : (0:ℝ) < A := by exact_mod_cast hA
  have hm : (0:ℝ) < A * p_mc2 := by nlinarith [p_mc2_pos]
  have hbpos : 0 < relBeta e ((A:ℝ) * p_mc2) := relBeta_pos e _ he hm
  have hguard : ¬ ((zPart A Z e z).beta * c_lgt = 0) := by
    rw [zPart_beta]
    exact ne_of_gt (mul_pos hbpos c_lgt_pos)
  have hbne : ¬ (zPart A Z e z).beta = 0 := by
    rw [zPart_beta]
    exact ne_of_gt hbpos
  have hcond : gas.energy_loss (zPart A Z e z).energy (zPart A Z e z).mass_num
      (zPart A Z e z).charge_num ≤ 0 ∨
      threshold (gas.energy_loss (zPart A Z e z).energy (zPart A Z e z).mass_num
        (zPart A Z e z).charge_num
        * (pos_step / ((zPart A Z e z).beta * c_lgt)
          * (zPart A Z e z).beta * c_lgt)) 0 = 0 :=
    Or.inl hstop
  have hp1 : (zPart A Z e z).set_state_vector
      ((zPart A Z e z).position, ⟨0, 0, 0⟩) = zPart A Z 0 z := by
    show (zPart A Z e z).set_momentum ⟨0, 0, 0⟩ = zPart A Z 0 z
    exact zPart_set_momentum_zero A Z e z hA
  have hdone : (zPart A Z 0 z).energy ≤ fe ∨ outOfBounds (zPart A Z 0 z).position :=
    Or.inl (by rw [zPart_energy]; exact hfe)
  unfold track
  simp only [track_loop]
  rw [if_neg hguard,
    find_next_state_stopped (zPart A Z e z) gas ef bf _ hbne hcond, hp1,
    if_pos hdone]
  simp only [List.reverse_cons, List.reverse_nil, List.nil_append,
    List.cons_append, Option.some.injEq, TrackOutcome.ok.injEq]
  refine ⟨?_, trivial⟩
  have hen0 : (zPart A Z 0 z).energy_per_particle = 0 := by
    unfold Particle.energy_per_particle
    rw [zPart_energy, zero_div]
  have hene : (zPart A Z e z).energy_per_particle = e / A := by
    unfold Particle.energy_per_particle
    rw [zPart_energy]
    rfl
  simp only [hen0, hene, zero_add, sub_zero, zPart_position, zPart_momentum,
    zPart_azimuth, zPart_polar, zPart_beta, pMag_zero]

/-! ### Generic facts about one applied driver step -/

theorem set_state_vector_eq (p : Particle) (s : Vec3 × Vec3) :
    p.set_state_vector s = ({ p with position := s.1 }).set_momentum s.2 := rfl

theorem set_momentum_self_energy (p : Particle) (hp : p.Valid) :
    (p.set_momentum p.momentum).energy = p.energy := by
  obtain ⟨hm, he, hmm, hns, hinv⟩ := hp
  rw [Particle.set_momentum_energy]
  unfold EPInvariant at hinv
  rw [show p.momentum.normSq + p.mass ^ 2 = (p.energy + p.mass) ^ 2 from hinv.symm,
    Real.sqrt_sq (by linarith)]
  ring

theorem set_momentum_zero_energy (p : Particle) (hm : 0 ≤ p.mass) :
    (p.set_momentum ⟨0, 0, 0⟩).energy = 0 := by
  rw [Particle.set_momentum_energy]
  have h : Vec3.normSq ⟨0, 0, 0⟩ = 0 := by
    unfold Vec3.normSq
    norm_num
  rw [h, zero_add, Real.sqrt_sq hm, sub_self]

theorem set_momentum_from_set_energy_energy (q : Particle) (en : ℝ)
    (hen : 0 ≤ en) (hqm : 0 < q.mass) (r : Particle) (hrm : r.mass = q.mass) :
    (r.set_momentum (q.set_energy en).momentum).energy = en := by
  rw [Particle.set_momentum_energy, hrm,
    Particle.set_energy_momentum_normSq q en hen hqm.le]
  have h2 : (en + q.mass) ^ 2 - q.mass ^ 2 + q.mass ^ 2 = (en + q.mass) ^ 2 := by
    ring
  rw [h2, Real.sqrt_sq (by linarith)]
  ring

/-- One applied driver step (`find_next_state` followed by the state-vector
write-back) keeps the state valid, never increases the kinetic energy, and
keeps the particle's identity. -/
theorem step_energy_facts (p : Particle) (hp : p.Valid) (gas : Gas)
    (ef bf : Vec3) (t : ℝ) :
    ((find_next_state p gas ef bf t).2.set_state_vector
        (find_next_state p gas ef bf t).1).Valid ∧
    ((find_next_state p gas ef bf t).2.set_state_vector
        (find_next_state p gas ef bf t).1).energy ≤ p.energy ∧
    ((find_next_state p gas ef bf t).2.set_state_vector
        (find_next_state p gas ef bf t).1).mass_num = p.mass_num ∧
    ((find_next_state p gas ef bf t).2.set_state_vector
        (find_next_state p gas ef bf t).1).charge_num = p.charge_num := by
  have hmass := hp.1
  have hen := hp.2.1
  by_cases hb : p.beta = 0
  · rw [find_next_state_beta_zero p gas ef bf t hb]
    dsimp only
    show (p.set_momentum p.momentum).Valid ∧
      (p.set_momentum p.momentum).energy ≤ p.energy ∧
      (p.set_momentum p.momentum).mass_num = p.mass_num ∧
      (p.set_momentum p.momentum).charge_num = p.charge_num
    exact ⟨set_momentum_valid p _ hmass,
      le_of_eq (set_momentum_self_energy p hp), rfl, rfl⟩
  · by_cases hcond : gas.energy_loss p.energy p.mass_num p.charge_num ≤ 0 ∨
        threshold (gas.energy_loss p.energy p.mass_num p.charge_num
          * (t * p.beta * c_lgt)) 0 = 0
    · rw [find_next_state_stopped p gas ef bf t hb hcond]
      dsimp only
      show (p.set_momentum ⟨0, 0, 0⟩).Valid ∧
        (p.set_momentum ⟨0, 0, 0⟩).energy ≤ p.energy ∧
        (p.set_momentum ⟨0, 0, 0⟩).mass_num = p.mass_num ∧
        (p.set_momentum ⟨0, 0, 0⟩).charge_num = p.charge_num
      refine ⟨set_momentum_valid p _ hmass, ?_, rfl, rfl⟩
      rw [set_momentum_zero_energy p hmass.le]
      exact hen
    · rw [find_next_state_normal p gas ef bf t hb hcond]
      dsimp only
      rw [set_state_vector_eq]
      dsimp only
      refine ⟨set_momentum_valid _ _ hmass, ?_, rfl, rfl⟩
      rw [set_momentum_from_set_energy_energy]
      · exact threshold_le_of_nonneg _ _ hen (threshold_nonneg _)
      · exact threshold_nonneg _
      · exact hmass
      · rfl

theorem epp_le (p q : Particle) (hA : 0 < p.mass_num)
    (hmn : q.mass_num = p.mass_num) (hle : q.energy ≤ p.energy) :
    q.energy_per_particle ≤ p.energy_per_particle := by
  unfold Particle.energy_per_particle
  rw [hmn]
  have hc : (0:ℝ) < p.mass_num := by exact_mod_cast hA
  exact (div_le_div_right hc).mpr hle

/-- Loop invariant of the trajectory driver: from a valid state, the recorded
per-step energy losses stay non-negative and their running sum telescopes to
initial minus final energy per nucleon. -/
theorem track_loop_de_sum (gas : Gas) (ef bf : Vec3) (fe : ℝ) :
    ∀ (n : ℕ) (p : Particle) (r0 : Row) (rest : List Row) (t : ℝ)
      (rows : List Row) (pF : Particle),
      track_loop gas ef bf fe n p (r0 :: rest) t
        = some (TrackOutcome.ok rows pF) →
      p.Valid → 0 < p.mass_num → r0.en = p.energy_per_particle →
      (∀ r ∈ r0 :: rest, 0 ≤ r.de) →
      pF.mass_num = p.mass_num ∧
      (∀ r ∈ rows, 0 ≤ r.de) ∧
      (rows.map Row.de).sum
        = ((r0 :: rest).map Row.de).sum
          + (p.energy_per_particle - pF.energy_per_particle) := by
  intro n
  induction n with
  | zero =>
    intro p r0 rest t rows pF h
    simp only [track_loop] at h
    exact absurd h (by intro hcontra; cases hcontra)
  | succ n ih =>
    intro p r0 rest t rows pF h hval hA hr0 hde
    simp only [track_loop] at h
    by_cases hg : p.beta * c_lgt = 0
    · rw [if_pos hg] at h
      simp only [Option.some.injEq] at h
      exact absurd h (by intro hcontra; cases hcontra)
    · rw [if_neg hg] at h
      have hfacts := step_energy_facts p hval gas ef bf
        (pos_step / (p.beta * c_lgt))
      set X := find_next_state p gas ef bf (pos_step / (p.beta * c_lgt))
        with hX
      set P1 := X.2.set_state_vector X.1 with hP1
      obtain ⟨hv1, hle1, hmn1, hcn1⟩ := hfacts
      have hA1 : 0 < P1.mass_num := by rw [hmn1]; exact hA
      have hepp : P1.energy_per_particle ≤ p.energy_per_particle :=
        epp_le p P1 hA hmn1 hle1
      by_cases hdone : P1.energy ≤ fe ∨ outOfBounds P1.position
      · rw [if_pos hdone] at h
        simp only [Option.some.injEq, TrackOutcome.ok.injEq] at h
        obtain ⟨hrows, hpf⟩ := h
        subst hpf
        refine ⟨hmn1, ?_, ?_⟩
        · intro r hr
          rw [← hrows, List.mem_reverse] at hr
          rcases List.mem_cons.mp hr with hr1 | hr2
          · subst hr1
            show (0:ℝ) ≤ r0.en - P1.energy_per_particle
            rw [hr0]
            linarith
          · rcases List.mem_cons.mp hr2 with hr3 | hr4
            · subst hr3
              exact hde r0 (List.mem_cons_self _ _)
            · exact hde _ (List.mem_cons_of_mem _ hr4)
        · rw [← hrows]
          rw [List.map_reverse, List.sum_reverse]
          simp only [List.map_cons, List.sum_cons]
          rw [hr0]
          ring
      · rw [if_neg hdone] at h
        have hres := ih P1 _ _ _ rows pF h hv1 hA1 rfl ?hde1
        case hde1 =>
          intro r hr
          rcases List.mem_cons.mp hr with hr1 | hr2
          · subst hr1
            show (0:ℝ) ≤ r0.en - P1.energy_per_particle
            rw [hr0]
            linarith
          · rcases List.mem_cons.mp hr2 with hr3 | hr4
            · subst hr3
              exact hde r0 (List.mem_cons_self _ _)
            · exact hde _ (List.mem_cons_of_mem _ hr4)
        obtain ⟨hmn2, hde2, hsum2⟩ := hres
        refine ⟨hmn2.trans hmn1, hde2, ?_⟩
        rw [hsum2]
        simp only [List.map_cons, List.sum_cons]
        rw [hr0]
        have hee : P1.energy_per_particle ≤ p.energy_per_particle := hepp
        ring

/-! ### Claim C7: recorded energy losses -/

/-- Claim C7: for every track run from a valid state that terminates by
reaching the energy floor, every per-step energy loss recorded in the de
column is non-negative, and the de column sums exactly to initial minus
final energy per nucleon. -/
theorem c7_de_nonneg_and_sum (fuel : ℕ) (p : Particle) (gas : Gas)
    (ef bf : Vec3) (fe : ℝ) (rows : List Row) (pF : Particle)
    (hp : p.Valid) (hA : 0 < p.mass_num)
    (hrun : track fuel p gas ef bf fe = some (TrackOutcome.ok rows pF))
    (hfloor : pF.energy ≤ fe) :
    (∀ r ∈ rows, 0 ≤ r.de) ∧
    (rows.map Row.de).sum = p.energy_per_particle - pF.energy_per_particle := by
  unfold track at hrun
  have hres := track_loop_de_sum gas ef bf fe fuel p
    { pos := p.position, mom := p.momentum, time := 0,
      en := p.energy_per_particle, de := 0, azi := p.azimuth, pol := p.polar }
    [] 0 rows pF hrun hp hA rfl ?de0
  case de0 =>
    intro r hr
    rw [List.mem_singleton] at hr
    subst hr
    exact le_refl 0
  obtain ⟨hmn, hde, hsum⟩ := hres
  refine ⟨hde, ?_⟩
  rw [hsum]
  simp only [List.map_cons, List.map_nil, List.sum_cons, List.sum_nil]
  ring

/-- A stopping-power provider returning the constant rate -1 MeV/m, which
makes the integrator take the stopped-particle branch immediately. -/
def gasNeg : Gas := ⟨fun _ _ _ => -1⟩

/-- The two rows recorded by the one-step stopped run used as C7's witness. -/
def c7Row0 : Row :=
  { pos := ⟨0, 0, 1/2⟩, mom := ⟨0, 0, pMag 2 (((1:ℕ):ℝ) * p_mc2)⟩, time := 0,
    en := 2 / ((1:ℕ):ℝ), de := 0, azi := 0, pol := 0 }

def c7Row1 : Row :=
  { pos := ⟨0, 0, 1/2⟩, mom := ⟨0, 0, 0⟩,
    time := pos_step / (relBeta 2 (((1:ℕ):ℝ) * p_mc2) * c_lgt),
    en := 0, de := 2 / ((1:ℕ):ℝ), azi := 0, pol := 0 }

/-- Witness for C7 at a one-step run that ends on the energy floor. -/
theorem c7_de_nonneg_and_sum_witness :
    (zPart 1 1 2 (1/2)).Valid ∧ 0 < (zPart 1 1 2 (1/2)).mass_num ∧
    (zPart 1 1 0 (1/2)).energy ≤ 0 ∧
    ((∀ r ∈ [c7Row0, c7Row1], 0 ≤ r.de) ∧
      ([c7Row0, c7Row1].map Row.de).sum
        = (zPart 1 1 2 (1/2)).energy_per_particle
          - (zPart 1 1 0 (1/2)).energy_per_particle) := by
  have hval := zPart_valid 1 1 2 (1/2) (by norm_num) (by norm_num)
  have hA : 0 < (zPart 1 1 2 (1/2)).mass_num := by
    rw [zPart_mass_num]
    norm_num
  have hrun : track 1 (zPart 1 1 2 (1/2)) gasNeg ⟨0, 0, 0⟩ ⟨0, 0, 0⟩ 0
      = some (TrackOutcome.ok [c7Row0, c7Row1] (zPart 1 1 0 (1/2))) :=
    track_one_stop 1 1 2 (1/2) gasNeg ⟨0, 0, 0⟩ ⟨0, 0, 0⟩ 0
      (by norm_num) (by norm_num) le_rfl (by norm_num [gasNeg])
  have hfloor : (zPart 1 1 0 (1/2)).energy ≤ 0 := by
    rw [zPart_energy]
  exact ⟨hval, hA, hfloor,
    c7_de_nonneg_and_sum 1 (zPart 1 1 2 (1/2)) gasNeg ⟨0, 0, 0⟩ ⟨0, 0, 0⟩ 0
      _ (zPart 1 1 0 (1/2)) hval hA hrun hfloor⟩

/-! ### Claim C4 (amended): termination for rate-bounded providers -/

/-- In the normal branch, the applied step's kinetic energy is the floored
decremented energy. -/
theorem step_applied_energy (p : Particle) (gas : Gas) (ef bf : Vec3) (t : ℝ)
    (hb : ¬ p.beta = 0)
    (hcond : ¬ (gas.energy_loss p.energy p.mass_num p.charge_num ≤ 0 ∨
      threshold (gas.energy_loss p.energy p.mass_num p.charge_num
        * (t * p.beta * c_lgt)) 0 = 0))
    (hm : 0 < p.mass) :
    ((find_next_state p gas ef bf t).2.set_state_vector
        (find_next_state p gas ef bf t).1).energy
      = threshold (p.energy - threshold (gas.energy_loss p.energy p.mass_num
          p.charge_num * (t * p.beta * c_lgt)) 0) 0 := by
  rw [find_next_state_normal p gas ef bf t hb hcond]
  dsimp only
  rw [set_state_vector_eq]
  dsimp only
  rw [set_momentum_from_set_energy_energy]
  · exact threshold_nonneg _
  · exact hm
  · rfl

/-- Driver termination: with the provider's rate bounded below by `ε` and
enough fuel for the energy budget, the loop returns. -/
theorem track_loop_term_aux (gas : Gas) (ef bf : Vec3) (fe ε : ℝ)
    (hε : 0 < ε) (hfe : 0 ≤ fe) :
    ∀ (n : ℕ) (p : Particle) (revRows : List Row) (t : ℝ),
      p.Valid → 0 < p.energy →
      (∀ e, 0 ≤ e → ε ≤ gas.energy_loss e p.mass_num p.charge_num) →
      p.energy ≤ fe + ((n : ℝ) + 1) * (ε * pos_step) →
      ∃ rows pF, track_loop gas ef bf fe (n + 1) p revRows t
        = some (TrackOutcome.ok rows pF) := by
  intro n
  induction n with
  | zero =>
    intro p revRows t hval hpos hgas hbound
    simp only [track_loop]
    have hbeta_pos : 0 < p.beta := relBeta_pos p.energy p.mass hpos hval.1
    have hg : ¬ (p.beta * c_lgt = 0) :=
      ne_of_gt (mul_pos hbeta_pos c_lgt_pos)
    rw [if_neg hg]
    have hdpos : pos_step / (p.beta * c_lgt) * p.beta * c_lgt = pos_step := by
      have hb := ne_of_gt hbeta_pos
      have hc := ne_of_gt c_lgt_pos
      field_simp
      ring
    have hs := hgas p.energy hval.2.1
    have hde_eq : gas.energy_loss p.energy p.mass_num p.charge_num
        * (pos_step / (p.beta * c_lgt) * p.beta * c_lgt)
        = gas.energy_loss p.energy p.mass_num p.charge_num * pos_step := by
      rw [hdpos]
    have hde_pos : 0 < gas.energy_loss p.energy p.mass_num p.charge_num
        * pos_step :=
      mul_pos (lt_of_lt_of_le hε hs) pos_step_pos
    have hcond : ¬ (gas.energy_loss p.energy p.mass_num p.charge_num ≤ 0 ∨
        threshold (gas.energy_loss p.energy p.mass_num p.charge_num
          * (pos_step / (p.beta * c_lgt) * p.beta * c_lgt)) 0 = 0) := by
      push_neg
      constructor
      · linarith
      · rw [hde_eq, threshold_eq_of_not_lt _ _ (not_lt.mpr hde_pos.le)]
        exact ne_of_gt hde_pos
    have hb : ¬ p.beta = 0 := ne_of_gt hbeta_pos
    have henergy := step_applied_energy p gas ef bf
      (pos_step / (p.beta * c_lgt)) hb hcond hval.1
    rw [hde_eq, threshold_eq_of_not_lt _ _ (not_lt.mpr hde_pos.le)] at henergy
    set X := find_next_state p gas ef bf (pos_step / (p.beta * c_lgt)) with hX
    set P1 := X.2.set_state_vector X.1 with hP1
    have hcase : P1.energy ≤ fe := by
      rw [henergy]
      unfold threshold
      have heps : ε * pos_step
          ≤ gas.energy_loss p.energy p.mass_num p.charge_num * pos_step :=
        mul_le_mul_of_nonneg_right hs pos_step_pos.le
      split
      · exact hfe
      · push_cast at hbound
        linarith
    rw [if_pos (Or.inl hcase)]
    exact ⟨_, _, rfl⟩
  | succ n ih =>
    intro p revRows t hval hpos hgas hbound
    rw [track_loop]
    have hbeta_pos : 0 < p.beta := relBeta_pos p.energy p.mass hpos hval.1
    have hg : ¬ (p.beta * c_lgt = 0) :=
      ne_of_gt (mul_pos hbeta_pos c_lgt_pos)
    rw [if_neg hg]
    dsimp only
    have hdpos : pos_step / (p.beta * c_lgt) * p.beta * c_lgt = pos_step := by
      have hb := ne_of_gt hbeta_pos
      have hc := ne_of_gt c_lgt_pos
      field_simp
      ring
    have hs := hgas p.energy hval.2.1
    have hde_eq : gas.energy_loss p.energy p.mass_num p.charge_num
        * (pos_step / (p.beta * c_lgt) * p.beta * c_lgt)
        = gas.energy_loss p.energy p.mass_num p.charge_num * pos_step := by
      rw [hdpos]
    have hde_pos : 0 < gas.energy_loss p.energy p.mass_num p.charge_num
        * pos_step :=
      mul_pos (lt_of_lt_of_le hε hs) pos_step_pos
    have hcond : ¬ (gas.energy_loss p.energy p.mass_num p.charge_num ≤ 0 ∨
        threshold (gas.energy_loss p.energy p.mass_num p.charge_num
          * (pos_step / (p.beta * c_lgt) * p.beta * c_lgt)) 0 = 0) := by
      push_neg
      constructor
      · linarith
      · rw [hde_eq, threshold_eq_of_not_lt _ _ (not_lt.mpr hde_pos.le)]
        exact ne_of_gt hde_pos
    have hb : ¬ p.beta = 0 := ne_of_gt hbeta_pos
    have henergy := step_applied_energy p gas ef bf
      (pos_step / (p.beta * c_lgt)) hb hcond hval.1
    rw [hde_eq, threshold_eq_of_not_lt _ _ (not_lt.mpr hde_pos.le)] at henergy
    have hfacts := step_energy_facts p hval gas ef bf
      (pos_step / (p.beta * c_lgt))
    set X := find_next_state p gas ef bf (pos_step / (p.beta * c_lgt)) with hX
    set P1 := X.2.set_state_vector X.1 with hP1
    obtain ⟨hv1, hle1, hmn1, hcn1⟩ := hfacts
    by_cases hd : P1.energy ≤ fe ∨ outOfBounds P1.position
    · rw [if_pos hd]
      exact ⟨_, _, rfl⟩
    · rw [if_neg hd]
      push_neg at hd
      have hgt : fe < P1.energy := hd.1
      have heps : ε * pos_step
          ≤ gas.energy_loss p.energy p.mass_num p.charge_num * pos_step :=
        mul_le_mul_of_nonneg_right hs pos_step_pos.le
      have hsub : P1.energy ≤ p.energy - ε * pos_step := by
        by_cases hlt : p.energy
            - gas.energy_loss p.energy p.mass_num p.charge_num * pos_step < 0
        · exfalso
          rw [henergy] at hgt
          unfold threshold at hgt
          rw [if_pos hlt] at hgt
          linarith
        · rw [henergy]
          unfold threshold
          rw [if_neg hlt]
          linarith
      apply ih P1 _ _ hv1 (lt_of_le_of_lt hfe hgt) ?gas1 ?bound1
      case gas1 =>
        intro e he
        rw [hmn1, hcn1]
        exact hgas e he
      case bound1 =>
        push_cast at hbound
        push_cast
        linarith

/-- Claim C4 (amended): for every valid particle with strictly positive
initial energy inside the detector bounds and every stopping-power provider
whose rate is bounded below by a positive constant `ε`, the track loop
terminates within at most ceil(E0 / (ε pos_step)) + 1 steps, by reaching the
energy floor or leaving the bounds.  (The code has no step or anomaly cap;
for rates that are merely strictly positive but vanish towards zero energy
the loop can run forever — see the counterexample.) -/
theorem c4_amended (p : Particle) (gas : Gas) (ef bf : Vec3) (fe ε : ℝ)
    (hp : p.Valid) (hpos : 0 < p.energy) (hin : ¬ outOfBounds p.position)
    (hfe : 0 ≤ fe) (hε : 0 < ε)
    (hgas : ∀ e, 0 ≤ e → ε ≤ gas.energy_loss e p.mass_num p.charge_num) :
    ∃ (fuel : ℕ) (rows : List Row) (pF : Particle),
      fuel ≤ Nat.ceil (p.energy / (ε * pos_step)) + 1 ∧
      track fuel p gas ef bf fe = some (TrackOutcome.ok rows pF) := by
  have hps : 0 < ε * pos_step := mul_pos hε pos_step_pos
  have hbound : p.energy ≤ fe
      + ((Nat.ceil (p.energy / (ε * pos_step)) : ℝ) + 1) * (ε * pos_step) := by
    have h1 : p.energy / (ε * pos_step)
        ≤ (Nat.ceil (p.energy / (ε * pos_step)) : ℝ) := Nat.le_ceil _
    rw [div_le_iff hps] at h1
    nlinarith
  obtain ⟨rows, pF, hloop⟩ := track_loop_term_aux gas ef bf fe ε hε hfe
    (Nat.ceil (p.energy / (ε * pos_step))) p
    [Row.mk p.position p.momentum 0 p.energy_per_particle 0 p.azimuth p.polar]
    0 hp hpos hgas hbound
  exact ⟨Nat.ceil (p.energy / (ε * pos_step)) + 1, rows, pF, le_refl _, hloop⟩

/-- Witness for C4 (amended) at a 2 MeV particle in a constant-rate gas. -/
theorem c4_amended_witness :
    (zPart 1 1 2 (1/2)).Valid ∧ (0:ℝ) < (zPart 1 1 2 (1/2)).energy ∧
    (∀ e : ℝ, 0 ≤ e → 1 ≤ gasOne.energy_loss e (zPart 1 1 2 (1/2)).mass_num
      (zPart 1 1 2 (1/2)).charge_num) ∧
    (∃ (fuel : ℕ) (rows : List Row) (pF : Particle),
      fuel ≤ Nat.ceil ((zPart 1 1 2 (1/2)).energy / (1 * pos_step)) + 1 ∧
      track fuel (zPart 1 1 2 (1/2)) gasOne ⟨0, 0, 0⟩ ⟨0, 0, 0⟩ 0
        = some (TrackOutcome.ok rows pF)) := by
  have hval := zPart_valid 1 1 2 (1/2) (by norm_num) (by norm_num)
  have hpos : (0:ℝ) < (zPart 1 1 2 (1/2)).energy := by
    rw [zPart_energy]
    norm_num
  have hin : ¬ outOfBounds (zPart 1 1 2 (1/2)).position := by
    rw [zPart_position]
    unfold outOfBounds
    push_neg
    constructor
    · show (0:ℝ) ≤ 1/2 ∧ (1/2:ℝ) ≤ 1
      norm_num
    · show Real.sqrt ((0:ℝ) ^ 2 + 0 ^ 2) ≤ 0.275
      rw [show (0:ℝ) ^ 2 + 0 ^ 2 = 0 by norm_num, Real.sqrt_zero]
      norm_num
  have hgas : ∀ e : ℝ, 0 ≤ e → 1 ≤ gasOne.energy_loss e
      (zPart 1 1 2 (1/2)).mass_num (zPart 1 1 2 (1/2)).charge_num :=
    fun e he => le_refl 1
  exact ⟨hval, hpos, hgas,
    c4_amended (zPart 1 1 2 (1/2)) gasOne ⟨0, 0, 0⟩ ⟨0, 0, 0⟩ 0 1 hval hpos hin
      le_rfl (by norm_num) hgas⟩

/-! ### Claim C4 (counterexample): a strictly positive provider that loops -/

/-- A strictly positive stopping-power provider whose rate vanishes towards
zero energy: on (0, 16) it returns e (1 - e/16) / pos_step, elsewhere 1. -/
def c4Gas : Gas :=
  ⟨fun e _ _ => if e ≤ 0 then 1 else if e < 16 then e * (1 - e / 16) / pos_step else 1⟩

theorem c4Gas_pos (e : ℝ) (A : ℕ) (Z : ℤ) : 0 < c4Gas.energy_loss e A Z := by
  show 0 < if e ≤ 0 then (1:ℝ) else if e < 16 then e * (1 - e / 16) / pos_step else 1
  split
  · norm_num
  · split
    · have he : 0 < e := lt_of_not_le (by assumption)
      have h16 : e < 16 := by assumption
      have h1 : 0 < 1 - e / 16 := by linarith
      have := pos_step_pos
      positivity
    · norm_num

/-- The key decay bound: when the energy drops from `e` to `e^2/16` (with
`e` at most 1 and at most the rest mass), the speed drops at least by the
factor sqrt(e)/2. -/
theorem relBeta_decay_bound (e m : ℝ) (he : 0 < e) (he1 : e ≤ 1) (hm : 1 ≤ m) :
    relBeta (e ^ 2 / 16) m ≤ Real.sqrt e / 2 * relBeta e m := by
  have hm0 : 0 < m := lt_of_lt_of_le one_pos hm
  have hS : 0 < Real.sqrt (e + 2 * m) := Real.sqrt_pos.mpr (by linarith)
  have hS2 : 0 ≤ Real.sqrt (e ^ 2 / 16 + 2 * m) := Real.sqrt_nonneg _
  have hsqe : 0 < Real.sqrt e := Real.sqrt_pos.mpr he
  have hses : Real.sqrt (e ^ 2 / 16) = e / 4 := by
    rw [show e ^ 2 / 16 = (e / 4) ^ 2 by ring, Real.sqrt_sq (by linarith)]
  have hmono : Real.sqrt (e ^ 2 / 16 + 2 * m) ≤ Real.sqrt (e + 2 * m) := by
    apply Real.sqrt_le_sqrt
    nlinarith
  have hrhs : Real.sqrt e / 2 * relBeta e m
      = e * Real.sqrt (e + 2 * m) / (2 * (e + m)) := by
    unfold relBeta
    rw [show e * Real.sqrt (e + 2 * m) / (2 * (e + m))
        = Real.sqrt e * Real.sqrt e * Real.sqrt (e + 2 * m) / (2 * (e + m)) by
      rw [Real.mul_self_sqrt he.le]]
    have hem : e + m ≠ 0 := by positivity
    field_simp
    ring_nf
    rw [Real.sq_sqrt he.le]
  rw [hrhs]
  unfold relBeta
  rw [hses]
  have hd1 : (0:ℝ) < e ^ 2 / 16 + m := by positivity
  rw [div_le_div_iff hd1 (by positivity : (0:ℝ) < 2 * (e + m))]
  have h1 : Real.sqrt (e ^ 2 / 16 + 2 * m) * (e + m)
      ≤ Real.sqrt (e + 2 * m) * (e + m) :=
    mul_le_mul_of_nonneg_right hmono (by linarith)
  have ha : e / 2 * (Real.sqrt (e ^ 2 / 16 + 2 * m) * (e + m))
      ≤ e / 2 * (Real.sqrt (e + 2 * m) * (e + m)) :=
    mul_le_mul_of_nonneg_left h1 (by linarith)
  have h2 : (e + m) * Real.sqrt (e + 2 * m) ≤ 2 * m * Real.sqrt (e + 2 * m) :=
    mul_le_mul_of_nonneg_right (by nlinarith) hS.le
  have hb : e / 2 * ((e + m) * Real.sqrt (e + 2 * m))
      ≤ e / 2 * (2 * m * Real.sqrt (e + 2 * m)) :=
    mul_le_mul_of_nonneg_left h2 (by linarith)
  have h3 : m * Real.sqrt (e + 2 * m)
      ≤ (e ^ 2 / 16 + m) * Real.sqrt (e + 2 * m) :=
    mul_le_mul_of_nonneg_right (by nlinarith) hS.le
  have hc : e * (m * Real.sqrt (e + 2 * m))
      ≤ e * ((e ^ 2 / 16 + m) * Real.sqrt (e + 2 * m)) :=
    mul_le_mul_of_nonneg_left h3 he.le
  nlinarith [ha, hb, hc]

set_option maxHeartbeats 1000000 in
/-- Non-termination invariant: from an axis state with energy in (0, 1] and
z in the middle of the chamber with enough headroom for the total remaining
advance, the driver loop never reaches a termination condition, whatever the
fuel. -/
theorem c4_loop_none :
    ∀ (n : ℕ) (e z : ℝ) (revRows : List Row) (t : ℝ),
      0 < e → e ≤ 1 → 1/2 ≤ z →
      z + 2/3 * pos_step * Real.sqrt e ≤ 3/5 →
      track_loop c4Gas ⟨0, 0, 0⟩ ⟨0, 0, 0⟩ 0 n (zPart 1 0 e z) revRows t
        = none := by
  intro n
  induction n with
  | zero =>
    intro e z revRows t he he1 hz hzb
    rfl
  | succ n ih =>
    intro e z revRows t he he1 hz hzb
    have hcast : ((1:ℕ):ℝ) * p_mc2 = p_mc2 := by
      push_cast
      ring
    have hM1 : (1:ℝ) ≤ p_mc2 := by norm_num [p_mc2]
    have hM0 : (0:ℝ) < p_mc2 := p_mc2_pos
    have hβ : 0 < relBeta e p_mc2 := relBeta_pos e _ he hM0
    have hg : ¬ ((zPart 1 0 e z).beta * c_lgt = 0) := by
      rw [zPart_beta, hcast]
      exact ne_of_gt (mul_pos hβ c_lgt_pos)
    rw [track_loop]
    rw [if_neg hg]
    dsimp only
    rw [zPart_beta, hcast]
    set T := pos_step / (relBeta e p_mc2 * c_lgt) with hT
    have hTpos : 0 < T := div_pos pos_step_pos (mul_pos hβ c_lgt_pos)
    have hs : 0 < c4Gas.energy_loss e 1 0 := c4Gas_pos e 1 0
    have hloss : c4Gas.energy_loss e 1 0 = e * (1 - e / 16) / pos_step := by
      show (if e ≤ 0 then (1:ℝ) else if e < 16 then e * (1 - e / 16) / pos_step else 1)
          = e * (1 - e / 16) / pos_step
      rw [if_neg (not_le.mpr he), if_pos (by linarith : e < 16)]
    have h1 : relBeta e p_mc2 ≠ 0 := ne_of_gt hβ
    have h2 : c_lgt ≠ 0 := ne_of_gt c_lgt_pos
    have hcan : T * relBeta e p_mc2 * c_lgt = pos_step := by
      rw [hT]
      field_simp
      ring
    have hdeval : deStep c4Gas 1 0 e T = e * (1 - e / 16) := by
      unfold deStep
      rw [hcast, hcan, hloss, div_mul_cancel₀ _ (ne_of_gt pos_step_pos)]
    have he2 : 0 < e - deStep c4Gas 1 0 e T := by
      rw [hdeval]
      nlinarith
    have hstep := zPart_step_zero_fields 1 0 e z T c4Gas (by norm_num) he hs
      hTpos he2
    rw [hcast] at hstep
    rw [hstep]
    dsimp only
    have hE : e - deStep c4Gas 1 0 e T = e ^ 2 / 16 := by
      rw [hdeval]
      ring
    rw [hE]
    have he'pos : (0:ℝ) < e ^ 2 / 16 := by positivity
    have hβ' : 0 < relBeta (e ^ 2 / 16) p_mc2 := relBeta_pos _ _ he'pos hM0
    set A' := T * (c_lgt * relBeta (e ^ 2 / 16) p_mc2) with hA'
    have hadv0 : 0 ≤ A' :=
      mul_nonneg hTpos.le (mul_nonneg c_lgt_pos.le hβ'.le)
    have hA'eq : A' = pos_step * relBeta (e ^ 2 / 16) p_mc2 / relBeta e p_mc2 := by
      rw [hA', hT]
      field_simp
      ring
    have hadv_le : A' ≤ pos_step * Real.sqrt e / 2 := by
      rw [hA'eq, div_le_iff hβ]
      have hdecay := relBeta_decay_bound e p_mc2 he he1 hM1
      nlinarith [pos_step_pos, Real.sqrt_nonneg e]
    have hupd := zPart_update_momentum 1 0 e z (e ^ 2 / 16) ⟨0, 0, z + A'⟩
      (by norm_num) he'pos.le
    rw [hcast] at hupd
    have hp1 : Particle.set_state_vector
        { zPart 1 0 e z with position := (⟨0, 0, z + A'⟩ : Vec3) }
        ((⟨0, 0, z + A'⟩ : Vec3),
          (⟨0, 0, pMag (e ^ 2 / 16) p_mc2⟩ : Vec3))
        = zPart 1 0 (e ^ 2 / 16) (z + A') := by
      rw [set_state_vector_eq]
      exact hupd
    rw [hp1]
    have hsq : Real.sqrt (e ^ 2 / 16) = e / 4 := by
      rw [show e ^ 2 / 16 = (e / 4) ^ 2 by ring, Real.sqrt_sq (by linarith)]
    have he_sqrt : e ≤ Real.sqrt e := by
      have hs1 : Real.sqrt e ≤ 1 := Real.sqrt_le_one.mpr he1
      nlinarith [Real.mul_self_sqrt he.le, Real.sqrt_nonneg e]
    have hps := pos_step_pos
    have hmul : pos_step * e ≤ pos_step * Real.sqrt e :=
      mul_le_mul_of_nonneg_left he_sqrt hps.le
    have hsqnn : 0 ≤ pos_step * Real.sqrt e :=
      mul_nonneg hps.le (Real.sqrt_nonneg e)
    have hZhigh : z + A' + 2/3 * pos_step * Real.sqrt (e ^ 2 / 16) ≤ 3/5 := by
      rw [hsq]
      linarith [hmul, hadv_le, hzb]
    have hdone : ¬ ((zPart 1 0 (e ^ 2 / 16) (z + A')).energy ≤ 0 ∨
        outOfBounds (zPart 1 0 (e ^ 2 / 16) (z + A')).position) := by
      push_neg
      constructor
      · rw [zPart_energy]
        exact he'pos
      · rw [zPart_position]
        unfold outOfBounds
        push_neg
        have hsqz : 0 ≤ Real.sqrt (e ^ 2 / 16) := Real.sqrt_nonneg _
        constructor
        · show (0:ℝ) ≤ z + A' ∧ z + A' ≤ 1
          constructor
          · linarith
          · linarith [hadv_le, hzb, hsqnn]
        · show Real.sqrt ((0:ℝ) ^ 2 + 0 ^ 2) ≤ 0.275
          rw [show (0:ℝ) ^ 2 + 0 ^ 2 = 0 by norm_num, Real.sqrt_zero]
          norm_num
    rw [if_neg hdone]
    exact ih (e ^ 2 / 16) (z + A') _ _ he'pos
      (by nlinarith [mul_le_one he1 he.le he1]) (by linarith) hZhigh

/-- Counterexample to C4 as stated: `c4Gas` returns a strictly positive rate
at every query, the particle `zPart 1 0 1 (1/2)` has positive energy and
starts inside the detector bounds, yet the driver loop never terminates: the
energy decrement e (1 - e/16) makes the energy fall superexponentially
(e -> e^2/16) while the total remaining path stays under a millimetre, so
neither the energy floor nor the geometric exit ever fires and the
`while not done` loop of `track` runs forever (the code has no step cap). -/
theorem c4_counterexample :
    (∀ (e : ℝ) (A : ℕ) (Z : ℤ), 0 < c4Gas.energy_loss e A Z) ∧
    (0:ℝ) < (zPart 1 0 1 (1/2)).energy ∧
    (¬ outOfBounds (zPart 1 0 1 (1/2)).position) ∧
    (∀ n : ℕ, track n (zPart 1 0 1 (1/2)) c4Gas ⟨0, 0, 0⟩ ⟨0, 0, 0⟩ 0 = none) := by
  refine ⟨c4Gas_pos, ?_, ?_, ?_⟩
  · rw [zPart_energy]
    norm_num
  · rw [zPart_position]
    unfold outOfBounds
    push_neg
    constructor
    · show (0:ℝ) ≤ 1/2 ∧ (1/2:ℝ) ≤ 1
      norm_num
    · show Real.sqrt ((0:ℝ) ^ 2 + 0 ^ 2) ≤ 0.275
      rw [show (0:ℝ) ^ 2 + 0 ^ 2 = 0 by norm_num, Real.sqrt_zero]
      norm_num
  · intro n
    unfold track
    apply c4_loop_none n 1 (1/2) _ 0 (by norm_num) le_rfl le_rfl
    rw [Real.sqrt_one]
    norm_num [pos_step]

/-! ### Claim C5: the reaction composer's input validation -/

/-- Claim C5 (amended): the composer raises the invalid-input error exactly
when the projectile's energy is zero; it raises the unsupported-configuration
error exactly when the projectile's energy is nonzero *and* the target's
energy is nonzero (the projectile check runs first, so when both
preconditions are violated only the invalid-input error is raised).  In
either error case the original, unmodified particles are carried out with
the error: the failure occurs before any tracking. -/
theorem c5_error_iff (es : Particle → Particle → ℝ → ℝ → ℝ → Particle × Particle × (ℝ × ℝ))
    (fuel : ℕ) (proj target : Particle) (gas : Gas) (ef bf : Vec3)
    (ie ca az : ℝ) (ra : Bool) (ee : ℝ) (htarget : 0 ≤ target.energy) :
    (simulate_elastic_scattering_track es fuel proj target gas ef bf ie ca az ra ee
        = ComposerOutcome.error ScatterError.valueError proj target
      ↔ proj.energy = 0) ∧
    (simulate_elastic_scattering_track es fuel proj target gas ef bf ie ca az ra ee
        = ComposerOutcome.error ScatterError.notImplementedError proj target
      ↔ (proj.energy ≠ 0 ∧ target.energy ≠ 0)) := by
  by_cases h1 : proj.energy = 0
  · have ho : simulate_elastic_scattering_track es fuel proj target gas ef bf
        ie ca az ra ee = ComposerOutcome.error ScatterError.valueError proj target := by
      unfold simulate_elastic_scattering_track
      rw [if_pos h1]
    rw [ho]
    constructor
    · simp [h1]
    · simp [h1]
  · by_cases h2 : target.energy > 0
    · have ho : simulate_elastic_scattering_track es fuel proj target gas ef bf
          ie ca az ra ee
          = ComposerOutcome.error ScatterError.notImplementedError proj target := by
        unfold simulate_elastic_scattering_track
        rw [if_neg h1, if_pos h2]
      rw [ho]
      constructor
      · simp [h1]
      · simp [h1, ne_of_gt h2]
    · have hno : ∀ err : ScatterError,
          ¬ (simulate_elastic_scattering_track es fuel proj target gas ef bf
            ie ca az ra ee = ComposerOutcome.error err proj target) := by
        intro err hcontra
        unfold simulate_elastic_scattering_track at hcontra
        rw [if_neg h1, if_neg h2] at hcontra
        dsimp only at hcontra
        repeat' split at hcontra
        all_goals exact ComposerOutcome.noConfusion hcontra
      have hteq : target.energy = 0 := le_antisymm (not_lt.mp h2) htarget
      constructor
      · constructor
        · intro hcontra
          exact absurd hcontra (hno _)
        · intro he0
          exact absurd he0 h1
      · constructor
        · intro hcontra
          exact absurd hcontra (hno _)
        · intro hcontra
          exact absurd hteq hcontra.2

/-- A constant two-body kinematics stub used by concrete composer runs. -/
def esConst : Particle → Particle → ℝ → ℝ → ℝ → Particle × Particle × (ℝ × ℝ) :=
  fun _ _ _ _ _ => (zPart 1 1 2 (1/2), zPart 1 1 2 (1/2), (3, 4))

/-- Counterexample to C5 as stated: with a zero-energy projectile *and* a
target of nonzero energy, the composer raises the invalid-input error, not
the unsupported-configuration error — so "raises NotImplementedError iff the
target's energy is nonzero" fails in the only-if direction. -/
theorem c5_counterexample :
    simulate_elastic_scattering_track esConst 1 (zPart 1 1 0 0) (zPart 1 1 2 0)
        gasOne ⟨0, 0, 0⟩ ⟨0, 0, 0⟩ 0 0 0 false 0
      = ComposerOutcome.error ScatterError.valueError (zPart 1 1 0 0)
          (zPart 1 1 2 0) ∧
    (zPart 1 1 2 0).energy = 2 := by
  constructor
  · unfold simulate_elastic_scattering_track
    rw [if_pos (zPart_energy 1 1 0 0)]
  · exact zPart_energy 1 1 2 0

/-- Witness for C5 (amended) at a 2 MeV projectile and a stationary target. -/
theorem c5_error_iff_witness :
    (0:ℝ) ≤ (zPart 1 1 0 0).energy ∧
    ((simulate_elastic_scattering_track esConst 1 (zPart 1 1 2 (1/2))
          (zPart 1 1 0 0) gasOne ⟨0, 0, 0⟩ ⟨0, 0, 0⟩ 0 0 0 false 0
        = ComposerOutcome.error ScatterError.valueError (zPart 1 1 2 (1/2))
            (zPart 1 1 0 0)
      ↔ (zPart 1 1 2 (1/2)).energy = 0) ∧
    (simulate_elastic_scattering_track esConst 1 (zPart 1 1 2 (1/2))
          (zPart 1 1 0 0) gasOne ⟨0, 0, 0⟩ ⟨0, 0, 0⟩ 0 0 0 false 0
        = ComposerOutcome.error ScatterError.notImplementedError
            (zPart 1 1 2 (1/2)) (zPart 1 1 0 0)
      ↔ ((zPart 1 1 2 (1/2)).energy ≠ 0 ∧ (zPart 1 1 0 0).energy ≠ 0))) :=
  ⟨le_of_eq (zPart_energy 1 1 0 0).symm,
    c5_error_iff esConst 1 (zPart 1 1 2 (1/2)) (zPart 1 1 0 0) gasOne
      ⟨0, 0, 0⟩ ⟨0, 0, 0⟩ 0 0 0 false 0
      (le_of_eq (zPart_energy 1 1 0 0).symm)⟩

/-! ### Claim C6: the composer's two result shapes -/

/-- Claim C6: when the projectile tracking phase completes, the composer
returns the projectile's track alone (with absent true angles when angle
reporting was requested) if the projectile ended outside the bounding
cylinder; otherwise it returns projectile-track, ejectile-track and
recoil-track concatenated in that order, both product tracks' time columns
shifted by the time-column maximum of the projectile track, with the true
angles attached exactly when requested. -/
theorem c6_composer_paths
    (es : Particle → Particle → ℝ → ℝ → ℝ → Particle × Particle × (ℝ × ℝ))
    (fuel : ℕ) (proj target : Particle) (gas : Gas) (ef bf : Vec3)
    (ie ca az : ℝ) (ra : Bool) (ee : ℝ)
    (projRows : List Row) (proj1 ejec recoil : Particle) (angs : ℝ × ℝ)
    (ejRows recRows : List Row) (ejF recF : Particle)
    (hproj : ¬ proj.energy = 0) (htarget : ¬ target.energy > 0)
    (h1 : track fuel proj gas ef bf ie = some (TrackOutcome.ok projRows proj1))
    (h2 : es proj1 target ca az ee = (ejec, recoil, angs))
    (h3 : track fuel ejec gas ef bf 0 = some (TrackOutcome.ok ejRows ejF))
    (h4 : track fuel recoil gas ef bf 0 = some (TrackOutcome.ok recRows recF)) :
    simulate_elastic_scattering_track es fuel proj target gas ef bf ie ca az ra ee
      = if outOfBounds proj1.position then
          ComposerOutcome.ok projRows
            (if ra then some (none, none) else none) proj1
        else
          ComposerOutcome.ok
            (projRows ++ timeShift (maxTime projRows) ejRows
              ++ timeShift (maxTime projRows) recRows)
            (if ra then some (some angs.1, some angs.2) else none) proj1 := by
  unfold simulate_elastic_scattering_track
  rw [if_neg hproj, if_neg htarget, h1]
  dsimp only
  by_cases hob : outOfBounds proj1.position
  · rw [if_pos hob, if_pos hob]
  · rw [if_neg hob, if_neg hob]
    rw [h2]
    dsimp only
    rw [h3, h4]

/-- Witness for C6 at a concrete in-bounds reaction whose three sub-tracks
each stop after one step. -/
theorem c6_composer_paths_witness :
    (¬ (zPart 1 1 2 (1/2)).energy = 0) ∧
    (¬ (zPart 1 1 0 0).energy > 0) ∧
    simulate_elastic_scattering_track esConst 1 (zPart 1 1 2 (1/2))
        (zPart 1 1 0 0) gasNeg ⟨0, 0, 0⟩ ⟨0, 0, 0⟩ 0 0.3 0.4 true 0
      = if outOfBounds (zPart 1 1 0 (1/2)).position then
          ComposerOutcome.ok [c7Row0, c7Row1]
            (if true then some (none, none) else none) (zPart 1 1 0 (1/2))
        else
          ComposerOutcome.ok
            ([c7Row0, c7Row1] ++ timeShift (maxTime [c7Row0, c7Row1]) [c7Row0, c7Row1]
              ++ timeShift (maxTime [c7Row0, c7Row1]) [c7Row0, c7Row1])
            (if true then some (some ((3:ℝ), (4:ℝ)).1, some ((3:ℝ), (4:ℝ)).2) else none)
            (zPart 1 1 0 (1/2)) := by
  have hproj : ¬ (zPart 1 1 2 (1/2)).energy = 0 := by
    rw [zPart_energy]
    norm_num
  have htarget : ¬ (zPart 1 1 0 0).energy > 0 := by
    rw [zPart_energy]
    exact lt_irrefl 0
  have hrun : track 1 (zPart 1 1 2 (1/2)) gasNeg ⟨0, 0, 0⟩ ⟨0, 0, 0⟩ 0
      = some (TrackOutcome.ok [c7Row0, c7Row1] (zPart 1 1 0 (1/2))) :=
    track_one_stop 1 1 2 (1/2) gasNeg ⟨0, 0, 0⟩ ⟨0, 0, 0⟩ 0
      (by norm_num) (by norm_num) le_rfl (by norm_num [gasNeg])
  exact ⟨hproj, htarget,
    c6_composer_paths esConst 1 (zPart 1 1 2 (1/2)) (zPart 1 1 0 0) gasNeg
      ⟨0, 0, 0⟩ ⟨0, 0, 0⟩ 0 0.3 0.4 true 0 [c7Row0, c7Row1] (zPart 1 1 0 (1/2))
      (zPart 1 1 2 (1/2)) (zPart 1 1 2 (1/2)) (3, 4) [c7Row0, c7Row1]
      [c7Row0, c7Row1] (zPart 1 1 0 (1/2)) (zPart 1 1 0 (1/2))
      hproj htarget hrun rfl hrun hrun⟩

end PyTPC
